import Mathlib

/-!
Verification of the TradingBook ledger replay engine and mutation planner
(`src/main.py`) against its natural-language specification.

Embedding conventions:
* Python `Decimal` values are modelled as exact rationals (`ℚ`).  The ledger
  stores small human-entered numbers; none of the verified properties depend
  on the 12-significant-digit context rounding.
* Python strings that are only compared or displayed (`ticker`, `date`) are
  modelled as `String`; the `note` field, which is *parsed* character by
  character, is modelled as `List Char` (a Python `str` is a sequence of
  characters).
* The nested dict `positions : {ticker: {row_id: Lot}}` is modelled as the
  flat list of live lots, keyed by the pair (ticker, lot id); `realized` is
  modelled as a total map `String → ℚ` defaulting to 0, which matches the
  `setdefault(ticker, Decimal("0"))` discipline of `build_portfolio`.
* A Python function that can raise an uncaught exception is modelled as an
  `Option`-valued function returning `none` on the raising paths.
-/

/-- Embedding of the `Lot` class (`main.py` lines 55-64). -/
structure Lot where
  id : Int
  ticker : String
  qty : ℚ
  price : ℚ
  stop : ℚ
deriving DecidableEq

/-- Embedding of one CSV ledger row, with the numeric fields already converted
as `build_portfolio` converts them (`Decimal(r["qty"])` etc., lines 125-130). -/
structure Row where
  id : Int
  date : String
  ticker : String
  qty : ℚ
  price : ℚ
  stop : ℚ
  note : List Char
deriving DecidableEq

/-- Replay state: the two values returned by `build_portfolio`. -/
structure PState where
  positions : List Lot
  realized : String → ℚ

/-- Python whitespace characters recognised by `str.split()` with no
arguments. -/
def isWs (c : Char) : Bool :=
  c == ' ' || c == '\t' || c == '\n' || c == '\r' || c == '\x0b' || c == '\x0c'

/-- Embedding of `note.split()`: split a character sequence on runs of
whitespace, discarding empty tokens. -/
def splitWs : List Char → List (List Char)
  | [] => []
  | [c] => if isWs c then [] else [[c]]
  | c :: d :: cs =>
    if isWs c then splitWs (d :: cs)
    else if isWs d then [c] :: splitWs cs
    else
      match splitWs (d :: cs) with
      | [] => [[c]]
      | t :: ts => (c :: t) :: ts

/-- Accumulating decimal-digit reader used to embed Python `int(...)`. -/
def parseDigitsAux : Nat → List Char → Option Nat
  | acc, [] => some acc
  | acc, c :: cs =>
    if c.isDigit then parseDigitsAux (acc * 10 + (c.toNat - 48)) cs else none

/-- Embedding of Python `int(s)` on an unsigned digit string: at least one
character, all decimal digits. -/
def parseDigits : List Char → Option Nat
  | [] => none
  | c :: cs => if c.isDigit then parseDigitsAux (c.toNat - 48) cs else none

/-- Embedding of Python `int(s)` on an optionally signed decimal string (the
underscore and unicode-digit liberties of CPython are never exercised by the
notes this program reads or writes). -/
def parsePyInt (cs : List Char) : Option Int :=
  match cs with
  | [] => none
  | c :: rest =>
    if c = '-' then (parseDigits rest).map (fun n => -(n : Int))
    else if c = '+' then (parseDigits rest).map (fun n => (n : Int))
    else (parseDigits (c :: rest)).map (fun n => (n : Int))

/-- Scan of the token list of `_parse_target_id` (lines 163-170): the first
token of the form `id=<integer>` wins; tokens whose payload fails `int()` are
skipped (`except ValueError: pass`). -/
def findTargetId : List (List Char) → Option Int
  | [] => none
  | t :: ts =>
    match t with
    | a :: b :: c :: rest =>
      if a = 'i' ∧ b = 'd' ∧ c = '=' then
        match parsePyInt rest with
        | some n => some n
        | none => findTargetId ts
      else findTargetId ts
    | _ => findTargetId ts

/-- Embedding of `_parse_target_id` (lines 163-170), with `none` standing for
the raised `ValueError("target id not found in note")`. -/
def parseTargetId (note : List Char) : Option Int :=
  findTargetId (splitWs note)

/-- Key predicate of the nested positions dict: a lot is the entry
`positions[t][i]`. -/
def keyMatch (t : String) (i : Int) (l : Lot) : Bool :=
  l.ticker == t && l.id == i

/-- Embedding of `positions[ticker].get(target)`. -/
def lookupLot (ps : List Lot) (t : String) (i : Int) : Option Lot :=
  ps.find? (keyMatch t i)

/-- Embedding of `positions[ticker][row_id] = Lot(...)` (line 141):
an existing entry with the same key is overwritten, last write wins. -/
def upsert (ps : List Lot) (nl : Lot) : List Lot :=
  ps.filter (fun l => !(keyMatch nl.ticker nl.id l)) ++ [nl]

/-- Embedding of the in-place mutation `lot.qty -= sell_qty` (line 151). -/
def setQty (ps : List Lot) (t : String) (i : Int) (q : ℚ) : List Lot :=
  ps.map (fun l => if keyMatch t i l then { l with qty := q } else l)

/-- Embedding of the in-place mutation `lot.stop = stop` (line 158). -/
def setStop (ps : List Lot) (t : String) (i : Int) (s : ℚ) : List Lot :=
  ps.map (fun l => if keyMatch t i l then { l with stop := s } else l)

/-- Embedding of `del positions[ticker][target]` (line 153). -/
def removeLot (ps : List Lot) (t : String) (i : Int) : List Lot :=
  ps.filter (fun l => !(keyMatch t i l))

/-- Pointwise update of the realized-P/L map: `realized[ticker] += d`. -/
def bump (f : String → ℚ) (t : String) (d : ℚ) : String → ℚ :=
  fun t2 => if t2 = t then f t2 + d else f t2

/-- One iteration of the `for r in rows` loop of `build_portfolio`
(lines 123-158).  `none` models an uncaught `ValueError` escaping from
`_parse_target_id`. -/
def replayStep (st : PState) (r : Row) : Option PState :=
  if 0 < r.qty then
    some { st with positions := upsert st.positions ⟨r.id, r.ticker, r.qty, r.price, r.stop⟩ }
  else if r.qty < 0 then
    match parseTargetId r.note with
    | none => none
    | some target =>
      match lookupLot st.positions r.ticker target with
      | none => some st
      | some lot =>
        let sell := if lot.qty < -r.qty then lot.qty else -r.qty
        let newQty := lot.qty - sell
        some { positions :=
                 if newQty = 0 then removeLot st.positions r.ticker target
                 else setQty st.positions r.ticker target newQty,
               realized := bump st.realized r.ticker (sell * (r.price - lot.price)) }
  else
    match parseTargetId r.note with
    | none => none
    | some target =>
      match lookupLot st.positions r.ticker target with
      | none => some st
      | some _ => some { st with positions := setStop st.positions r.ticker target r.stop }

/-- Replay of a row list from a given state (the loop of `build_portfolio`). -/
def replayList (st : PState) : List Row → Option PState
  | [] => some st
  | r :: rs =>
    match replayStep st r with
    | none => none
    | some st2 => replayList st2 rs

/-- Embedding of `build_portfolio(rows)` (lines 113-160). -/
def buildPortfolio (rows : List Row) : Option PState :=
  replayList ⟨[], fun _ => 0⟩ rows

/-- Sum of the remaining quantities of a ticker's open lots. -/
def tickerQty (ps : List Lot) (t : String) : ℚ :=
  ((ps.filter (fun l => l.ticker == t)).map Lot.qty).sum

/-! ### Basic facts about the replay primitives -/

theorem keyMatch_true_iff {t : String} {i : Int} {l : Lot} :
    keyMatch t i l = true ↔ l.ticker = t ∧ l.id = i := by
  simp [keyMatch]

theorem keyMatch_setQtyElem (t : String) (i : Int) (l : Lot) (q : ℚ) :
    keyMatch t i { l with qty := q } = keyMatch t i l := rfl

theorem keyMatch_setStopElem (t : String) (i : Int) (l : Lot) (s : ℚ) :
    keyMatch t i { l with stop := s } = keyMatch t i l := rfl

theorem replayStep_open {st : PState} {r : Row} (h : 0 < r.qty) :
    replayStep st r =
      some { st with positions := upsert st.positions ⟨r.id, r.ticker, r.qty, r.price, r.stop⟩ } := by
  simp [replayStep, h]

theorem replayStep_reduce_found {st : PState} {r : Row} {i : Int} {lot : Lot}
    (hq : r.qty < 0) (hp : parseTargetId r.note = some i)
    (hl : lookupLot st.positions r.ticker i = some lot) :
    replayStep st r =
      some { positions :=
               if lot.qty - (if lot.qty < -r.qty then lot.qty else -r.qty) = 0 then
                 removeLot st.positions r.ticker i
               else
                 setQty st.positions r.ticker i
                   (lot.qty - (if lot.qty < -r.qty then lot.qty else -r.qty)),
             realized := bump st.realized r.ticker
               ((if lot.qty < -r.qty then lot.qty else -r.qty) * (r.price - lot.price)) } := by
  have h0 : ¬ 0 < r.qty := by linarith
  simp [replayStep, h0, hq, hp, hl]

theorem replayStep_reduce_missing {st : PState} {r : Row} {i : Int}
    (hq : r.qty < 0) (hp : parseTargetId r.note = some i)
    (hl : lookupLot st.positions r.ticker i = none) :
    replayStep st r = some st := by
  have h0 : ¬ 0 < r.qty := by linarith
  simp [replayStep, h0, hq, hp, hl]

theorem replayStep_reduce_malformed {st : PState} {r : Row}
    (hq : r.qty < 0) (hp : parseTargetId r.note = none) :
    replayStep st r = none := by
  have h0 : ¬ 0 < r.qty := by linarith
  simp [replayStep, h0, hq, hp]

theorem replayStep_stop_found {st : PState} {r : Row} {i : Int} {lot : Lot}
    (hq : r.qty = 0) (hp : parseTargetId r.note = some i)
    (hl : lookupLot st.positions r.ticker i = some lot) :
    replayStep st r =
      some { st with positions := setStop st.positions r.ticker i r.stop } := by
  have h0 : ¬ 0 < r.qty := by simp [hq]
  have h1 : ¬ r.qty < 0 := by simp [hq]
  simp [replayStep, h0, h1, hp, hl]

theorem replayStep_stop_missing {st : PState} {r : Row} {i : Int}
    (hq : r.qty = 0) (hp : parseTargetId r.note = some i)
    (hl : lookupLot st.positions r.ticker i = none) :
    replayStep st r = some st := by
  have h0 : ¬ 0 < r.qty := by simp [hq]
  have h1 : ¬ r.qty < 0 := by simp [hq]
  simp [replayStep, h0, h1, hp, hl]

theorem replayStep_stop_malformed {st : PState} {r : Row}
    (hq : r.qty = 0) (hp : parseTargetId r.note = none) :
    replayStep st r = none := by
  have h0 : ¬ 0 < r.qty := by simp [hq]
  have h1 : ¬ r.qty < 0 := by simp [hq]
  simp [replayStep, h0, h1, hp]

theorem ite_lt_eq_min (a b : ℚ) : (if a < b then a else b) = min a b := by
  rcases le_or_lt b a with h | h
  · rw [if_neg (not_lt.mpr h), min_eq_right h]
  · rw [if_pos h, min_eq_left h.le]

/-! ### Lookup lemmas for the position list -/

theorem lookupLot_nil (t : String) (i : Int) : lookupLot [] t i = none := rfl

theorem lookup_setQty_self {ps : List Lot} {t : String} {i : Int} {lot : Lot} (q : ℚ)
    (hl : lookupLot ps t i = some lot) :
    lookupLot (setQty ps t i q) t i = some { lot with qty := q } := by
  induction ps with
  | nil => simp [lookupLot] at hl
  | cons a as ih =>
    by_cases hk : keyMatch t i a
    · rw [lookupLot, List.find?_cons_of_pos _ hk] at hl
      cases hl
      rw [setQty, List.map_cons, if_pos hk, lookupLot,
        List.find?_cons_of_pos _ (by rw [keyMatch_setQtyElem]; exact hk)]
    · rw [lookupLot, List.find?_cons_of_neg _ (by simp [hk])] at hl
      rw [setQty, List.map_cons, if_neg (by simp [hk]), lookupLot,
        List.find?_cons_of_neg _ (by simp [hk])]
      exact ih hl

theorem lookup_setStop_self {ps : List Lot} {t : String} {i : Int} {lot : Lot} (s : ℚ)
    (hl : lookupLot ps t i = some lot) :
    lookupLot (setStop ps t i s) t i = some { lot with stop := s } := by
  induction ps with
  | nil => simp [lookupLot] at hl
  | cons a as ih =>
    by_cases hk : keyMatch t i a
    · rw [lookupLot, List.find?_cons_of_pos _ hk] at hl
      cases hl
      rw [setStop, List.map_cons, if_pos hk, lookupLot,
        List.find?_cons_of_pos _ (by rw [keyMatch_setStopElem]; exact hk)]
    · rw [lookupLot, List.find?_cons_of_neg _ (by simp [hk])] at hl
      rw [setStop, List.map_cons, if_neg (by simp [hk]), lookupLot,
        List.find?_cons_of_neg _ (by simp [hk])]
      exact ih hl

theorem lookup_removeLot_self (ps : List Lot) (t : String) (i : Int) :
    lookupLot (removeLot ps t i) t i = none := by
  induction ps with
  | nil => rfl
  | cons a as ih =>
    by_cases hk : keyMatch t i a
    · rw [removeLot, List.filter_cons_of_neg (by simp [hk])]
      exact ih
    · rw [removeLot, List.filter_cons_of_pos (by simp [hk]), lookupLot,
        List.find?_cons_of_neg _ (by simp [hk])]
      exact ih

/-! ### Claim C1 -/

/-- Scenario 2 of the spec: an opening event followed by a reduction. -/
def c1row1 : Row := ⟨1, "2024-01-01", "TSLA", 100, 200, 180, []⟩

/-- Reduction event of Scenario 2, note `id=1`. -/
def c1row2 : Row := ⟨2, "2024-01-02", "TSLA", -30, 220, 0, "id=1".toList⟩

/-- C1: when a reduction event (qty < 0) carries a parseable `id=` reference to
a lot currently open under the same ticker, the replay engine sets
`sell_qty = min(-qty, lot.qty)`, adds `sell_qty * (price - lot.price)` to
`realized[ticker]` (other tickers untouched), decreases `lot.qty` by
`sell_qty`, and removes the lot exactly when the remaining quantity becomes 0.
In particular, an opening (qty 100 at 200) followed by a reduction (qty -30 at
220, note `id=1`) leaves lot 1 with qty 70 and realized 600. -/
theorem c1_reduction_step_semantics (st : PState) (r : Row) (i : Int) (lot : Lot)
    (hq : r.qty < 0) (hp : parseTargetId r.note = some i)
    (hl : lookupLot st.positions r.ticker i = some lot) :
    (∃ st2, replayStep st r = some st2 ∧
      st2.realized r.ticker
        = st.realized r.ticker + min (-r.qty) lot.qty * (r.price - lot.price) ∧
      (∀ t, t ≠ r.ticker → st2.realized t = st.realized t) ∧
      ((lookupLot st2.positions r.ticker i = none ↔ lot.qty - min (-r.qty) lot.qty = 0) ∧
       (lot.qty - min (-r.qty) lot.qty ≠ 0 →
         lookupLot st2.positions r.ticker i
           = some { lot with qty := lot.qty - min (-r.qty) lot.qty }))) ∧
    (buildPortfolio [c1row1, c1row2]).map
        (fun st0 => (lookupLot st0.positions "TSLA" 1, st0.realized "TSLA"))
      = some (some ⟨1, "TSLA", 70, 200, 180⟩, 600) := by
  constructor
  · have hmin : (if lot.qty < -r.qty then lot.qty else -r.qty) = min (-r.qty) lot.qty := by
      rw [ite_lt_eq_min, min_comm]
    refine ⟨_, replayStep_reduce_found hq hp hl, ?_, ?_, ?_⟩
    · simp [bump, hmin]
    · intro t ht
      simp [bump, ht]
    · rw [hmin]
      by_cases h0 : lot.qty - min (-r.qty) lot.qty = 0
      · rw [if_pos h0]
        exact ⟨by simp [lookup_removeLot_self, h0], fun hne => absurd h0 hne⟩
      · rw [if_neg h0]
        have hset := @lookup_setQty_self st.positions r.ticker i lot
          (lot.qty - min (-r.qty) lot.qty) hl
        exact ⟨by simp [hset, h0], fun _ => hset⟩
  · have hq1 : (0:ℚ) < c1row1.qty := by norm_num [c1row1]
    have hstep1 : replayStep ⟨[], fun _ => 0⟩ c1row1
        = some ⟨[⟨1, "TSLA", 100, 200, 180⟩], fun _ => 0⟩ := by
      rw [replayStep_open hq1]
      simp [upsert, c1row1]
    have hq2 : c1row2.qty < 0 := by norm_num [c1row2]
    have hp2 : parseTargetId c1row2.note = some 1 := by decide
    have hl2 : lookupLot (⟨[⟨1, "TSLA", 100, 200, 180⟩], fun _ => 0⟩ : PState).positions
        c1row2.ticker 1 = some ⟨1, "TSLA", 100, 200, 180⟩ := by
      simp [lookupLot, keyMatch, c1row2]
    have hstep2 := @replayStep_reduce_found ⟨[⟨1, "TSLA", 100, 200, 180⟩], fun _ => 0⟩
      c1row2 1 ⟨1, "TSLA", 100, 200, 180⟩ hq2 hp2 hl2
    have hsell : (if ((⟨1, "TSLA", 100, 200, 180⟩ : Lot)).qty < -c1row2.qty
        then ((⟨1, "TSLA", 100, 200, 180⟩ : Lot)).qty else -c1row2.qty) = 30 := by
      norm_num [c1row2]
    rw [hsell] at hstep2
    have hnz : ¬ (((⟨1, "TSLA", 100, 200, 180⟩ : Lot)).qty - 30 = 0) := by norm_num
    rw [if_neg hnz] at hstep2
    rw [buildPortfolio, replayList, hstep1]
    simp only [replayList, hstep2]
    have hpos : setQty (⟨[⟨1, "TSLA", 100, 200, 180⟩], fun _ => 0⟩ : PState).positions
        c1row2.ticker 1 (((⟨1, "TSLA", 100, 200, 180⟩ : Lot)).qty - 30)
        = [⟨1, "TSLA", 70, 200, 180⟩] := by
      norm_num [setQty, keyMatch, c1row2]
    rw [hpos]
    have hreal : bump (⟨[⟨1, "TSLA", 100, 200, 180⟩], fun _ => 0⟩ : PState).realized
        c1row2.ticker (30 * (c1row2.price - ((⟨1, "TSLA", 100, 200, 180⟩ : Lot)).price))
        "TSLA" = 600 := by
      norm_num [bump, c1row2]
    simp only [Option.map_some']
    refine congrArg some (Prod.ext ?_ hreal)
    simp [lookupLot, keyMatch]

/-- Witness for C1: the hypotheses hold at the state reached after replaying
the opening event of Scenario 2, and the scenario conclusion follows. -/
theorem c1_reduction_step_semantics_witness :
    (buildPortfolio [c1row1, c1row2]).map
        (fun st0 => (lookupLot st0.positions "TSLA" 1, st0.realized "TSLA"))
      = some (some ⟨1, "TSLA", 70, 200, 180⟩, 600) :=
  (c1_reduction_step_semantics ⟨[⟨1, "TSLA", 100, 200, 180⟩], fun _ => 0⟩ c1row2 1
    ⟨1, "TSLA", 100, 200, 180⟩ (by norm_num [c1row2]) (by decide)
    (by simp [lookupLot, keyMatch, c1row2])).2

/-! ### Claim C3 -/

/-- Stop-move event (qty = 0) whose note has no parseable `id=` token. -/
def c3row : Row := ⟨1, "2024-01-01", "TSLA", 0, 0, 190, "moved the stop".toList⟩

/-- Counterexample to C3: a stop-move event (qty = 0) whose note lacks a
parseable `id=` token is NOT a silent no-op — `_parse_target_id` is called
unguarded on line 155 as well, so the replay aborts with the same
`ValueError` as for a reduction.  The claimed asymmetry does not exist. -/
theorem c3_stop_missing_ref_counterexample :
    buildPortfolio [c3row] = none := by
  have hq : c3row.qty = 0 := by norm_num [c3row]
  have hp : parseTargetId c3row.note = none := by decide
  rw [buildPortfolio, replayList, replayStep_stop_malformed hq hp]

/-- C3 (amended): a reduction event (qty < 0) and a stop-move event (qty = 0)
behave symmetrically on a note lacking a parseable `id=` token — both abort
the replay with the malformed-reference error. -/
theorem c3_missing_ref_fatal_symmetric (st : PState) (r : Row)
    (hq : r.qty ≤ 0) (hp : parseTargetId r.note = none) :
    replayStep st r = none := by
  rcases lt_or_eq_of_le hq with h | h
  · exact replayStep_reduce_malformed h hp
  · exact replayStep_stop_malformed h hp

/-- Witness for the amended C3 at a concrete stop-move event. -/
theorem c3_missing_ref_fatal_symmetric_witness :
    replayStep ⟨[], fun _ => 0⟩ c3row = none :=
  c3_missing_ref_fatal_symmetric ⟨[], fun _ => 0⟩ c3row (by norm_num [c3row]) (by decide)

/-! ### Claim C5 -/

/-- Opening event for Scenario 5. -/
def c5row1 : Row := ⟨1, "2024-01-01", "TSLA", 100, 200, 180, []⟩

/-- Full close of lot 1 (drives its quantity to 0, removing it). -/
def c5row2 : Row := ⟨2, "2024-01-02", "TSLA", -100, 220, 0, "id=1".toList⟩

/-- Later reduction that still references the closed lot 1. -/
def c5row3 : Row := ⟨3, "2024-01-03", "TSLA", -50, 230, 0, "id=1".toList⟩

/-- C5: a reduction event whose note parses to a lot id absent from
`positions[ticker]` is silently ignored: the step succeeds and leaves the
replay state unchanged.  In particular (Scenario 5) a ledger whose last event
references an already-closed lot replays without error, with realized P/L
unchanged and no lot created. -/
theorem c5_reduction_closed_lot_ignored (st : PState) (r : Row) (i : Int)
    (hq : r.qty < 0) (hp : parseTargetId r.note = some i)
    (hl : lookupLot st.positions r.ticker i = none) :
    replayStep st r = some st ∧
    (buildPortfolio [c5row1, c5row2, c5row3]).map
        (fun s => (s.positions, s.realized "TSLA")) = some ([], 2000) := by
  constructor
  · exact replayStep_reduce_missing hq hp hl
  · have hq1 : (0:ℚ) < c5row1.qty := by norm_num [c5row1]
    have hstep1 : replayStep ⟨[], fun _ => 0⟩ c5row1
        = some ⟨[⟨1, "TSLA", 100, 200, 180⟩], fun _ => 0⟩ := by
      rw [replayStep_open hq1]
      simp [upsert, c5row1]
    have hq2 : c5row2.qty < 0 := by norm_num [c5row2]
    have hp2 : parseTargetId c5row2.note = some 1 := by decide
    have hl2 : lookupLot (⟨[⟨1, "TSLA", 100, 200, 180⟩], fun _ => 0⟩ : PState).positions
        c5row2.ticker 1 = some ⟨1, "TSLA", 100, 200, 180⟩ := by
      simp [lookupLot, keyMatch, c5row2]
    have hstep2 := @replayStep_reduce_found ⟨[⟨1, "TSLA", 100, 200, 180⟩], fun _ => 0⟩
      c5row2 1 ⟨1, "TSLA", 100, 200, 180⟩ hq2 hp2 hl2
    have hsell : (if ((⟨1, "TSLA", 100, 200, 180⟩ : Lot)).qty < -c5row2.qty
        then ((⟨1, "TSLA", 100, 200, 180⟩ : Lot)).qty else -c5row2.qty) = 100 := by
      norm_num [c5row2]
    rw [hsell] at hstep2
    have hz : ((⟨1, "TSLA", 100, 200, 180⟩ : Lot)).qty - 100 = 0 := by norm_num
    rw [if_pos hz] at hstep2
    have hrm : removeLot (⟨[⟨1, "TSLA", 100, 200, 180⟩], fun _ => 0⟩ : PState).positions
        c5row2.ticker 1 = [] := by
      simp [removeLot, keyMatch, c5row2]
    rw [hrm] at hstep2
    have hq3 : c5row3.qty < 0 := by norm_num [c5row3]
    have hp3 : parseTargetId c5row3.note = some 1 := by decide
    have hl3 : lookupLot ([] : List Lot) c5row3.ticker 1 = none := rfl
    have hstep3 := @replayStep_reduce_missing
      ⟨[], bump (⟨[⟨1, "TSLA", 100, 200, 180⟩], fun _ => 0⟩ : PState).realized c5row2.ticker
        (100 * (c5row2.price - ((⟨1, "TSLA", 100, 200, 180⟩ : Lot)).price))⟩
      c5row3 1 hq3 hp3 hl3
    rw [buildPortfolio, replayList, hstep1]
    simp only [replayList, hstep2, hstep3]
    have hreal : bump (⟨[⟨1, "TSLA", 100, 200, 180⟩], fun _ => 0⟩ : PState).realized
        c5row2.ticker (100 * (c5row2.price - ((⟨1, "TSLA", 100, 200, 180⟩ : Lot)).price))
        "TSLA" = 2000 := by
      norm_num [bump, c5row2]
    simp only [Option.map_some']
    exact congrArg some (Prod.ext rfl hreal)

/-- Witness for C5 at a concrete reduction event referencing a lot absent
from an empty position set. -/
theorem c5_reduction_closed_lot_ignored_witness :
    replayStep ⟨[], fun _ => 0⟩ c5row3 = some ⟨[], fun _ => 0⟩ ∧
    (buildPortfolio [c5row1, c5row2, c5row3]).map
        (fun s => (s.positions, s.realized "TSLA")) = some ([], 2000) :=
  c5_reduction_closed_lot_ignored ⟨[], fun _ => 0⟩ c5row3 1
    (by norm_num [c5row3]) (by decide) rfl

/-! ### Claim C7 -/

/-- C7: replay is deterministic and side-effect free.  `build_portfolio` is
embedded as a pure function of the event list — it reads nothing but `rows`
and returns fresh state — so two replays of the same sequence are equal. -/
theorem c7_replay_deterministic (rows : List Row) :
    buildPortfolio rows = buildPortfolio rows ∧
    (∀ rows2, rows = rows2 → buildPortfolio rows = buildPortfolio rows2) :=
  ⟨rfl, fun _ h => congrArg buildPortfolio h⟩

/-! ### Claim C8 -/

theorem mem_upsert {ps : List Lot} {nl l : Lot} (h : l ∈ upsert ps nl) : l ∈ ps ∨ l = nl := by
  rcases List.mem_append.mp h with h1 | h1
  · exact Or.inl (List.mem_of_mem_filter h1)
  · simp only [List.mem_singleton] at h1
    exact Or.inr h1

theorem lot_mem_of_lookup {ps : List Lot} {t : String} {i : Int} {lot : Lot}
    (h : lookupLot ps t i = some lot) : lot ∈ ps :=
  List.mem_of_find?_eq_some h

theorem allPos_step {st st2 : PState} {r : Row}
    (hinv : ∀ l ∈ st.positions, 0 < l.qty)
    (hstep : replayStep st r = some st2) :
    ∀ l ∈ st2.positions, 0 < l.qty := by
  by_cases h1 : 0 < r.qty
  · rw [replayStep_open h1] at hstep
    cases hstep
    intro l hl
    rcases mem_upsert hl with h | h
    · exact hinv l h
    · rw [h]; exact h1
  · by_cases h2 : r.qty < 0
    · cases hp : parseTargetId r.note with
      | none => rw [replayStep_reduce_malformed h2 hp] at hstep; cases hstep
      | some i =>
        cases hl : lookupLot st.positions r.ticker i with
        | none =>
          rw [replayStep_reduce_missing h2 hp hl] at hstep
          cases hstep; exact hinv
        | some lot =>
          rw [replayStep_reduce_found h2 hp hl] at hstep
          cases hstep
          intro l hmem
          simp only at hmem
          by_cases h0 : lot.qty - (if lot.qty < -r.qty then lot.qty else -r.qty) = 0
          · rw [if_pos h0] at hmem
            exact hinv l (List.mem_of_mem_filter hmem)
          · rw [if_neg h0] at hmem
            rcases List.mem_map.mp hmem with ⟨l0, hl0, heq⟩
            by_cases hk : keyMatch r.ticker i l0
            · rw [if_pos hk] at heq
              have hge : 0 ≤ lot.qty - (if lot.qty < -r.qty then lot.qty else -r.qty) := by
                by_cases hc : lot.qty < -r.qty
                · rw [if_pos hc]; linarith
                · rw [if_neg hc]; push_neg at hc; linarith
              rw [← heq]
              exact lt_of_le_of_ne hge (Ne.symm h0)
            · rw [if_neg hk] at heq
              rw [← heq]
              exact hinv l0 hl0
    · have h3 : r.qty = 0 := le_antisymm (not_lt.mp h1) (not_lt.mp h2)
      cases hp : parseTargetId r.note with
      | none => rw [replayStep_stop_malformed h3 hp] at hstep; cases hstep
      | some i =>
        cases hl : lookupLot st.positions r.ticker i with
        | none =>
          rw [replayStep_stop_missing h3 hp hl] at hstep
          cases hstep; exact hinv
        | some lot =>
          rw [replayStep_stop_found h3 hp hl] at hstep
          cases hstep
          intro l hmem
          simp only at hmem
          rcases List.mem_map.mp hmem with ⟨l0, hl0, heq⟩
          by_cases hk : keyMatch r.ticker i l0
          · rw [if_pos hk] at heq
            rw [← heq]
            exact hinv l0 hl0
          · rw [if_neg hk] at heq
            rw [← heq]
            exact hinv l0 hl0

theorem allPos_replayList {rows : List Row} {st st2 : PState}
    (hinv : ∀ l ∈ st.positions, 0 < l.qty)
    (h : replayList st rows = some st2) :
    ∀ l ∈ st2.positions, 0 < l.qty := by
  induction rows generalizing st with
  | nil =>
    rw [replayList] at h
    cases h; exact hinv
  | cons r rs ih =>
    rw [replayList] at h
    cases hstep : replayStep st r with
    | none => rw [hstep] at h; cases h
    | some stm =>
      rw [hstep] at h
      exact ih (allPos_step hinv hstep) h

theorem reduce_removal_iff {st st2 : PState} {r : Row} {i : Int} {lot : Lot}
    (hq : r.qty < 0) (hp : parseTargetId r.note = some i)
    (hl : lookupLot st.positions r.ticker i = some lot)
    (hstep : replayStep st r = some st2) :
    (lookupLot st2.positions r.ticker i = none ↔ lot.qty - min (-r.qty) lot.qty = 0) := by
  rw [replayStep_reduce_found hq hp hl] at hstep
  cases hstep
  have hm : (if lot.qty < -r.qty then lot.qty else -r.qty) = min (-r.qty) lot.qty := by
    rw [ite_lt_eq_min, min_comm]
  simp only [hm]
  by_cases h0 : lot.qty - min (-r.qty) lot.qty = 0
  · rw [if_pos h0]
    simp [lookup_removeLot_self, h0]
  · rw [if_neg h0]
    rw [@lookup_setQty_self st.positions r.ticker i lot _ hl]
    simp [h0]

/-- C8: every lot held in the replayed position map has strictly positive
remaining quantity, and a reduction step removes the referenced lot from the
map exactly when its remaining quantity becomes 0. -/
theorem c8_open_lots_positive (rows : List Row) (st : PState)
    (h : buildPortfolio rows = some st) :
    (∀ l ∈ st.positions, 0 < l.qty) ∧
    (∀ r i lot st2, r.qty < 0 → parseTargetId r.note = some i →
      lookupLot st.positions r.ticker i = some lot → replayStep st r = some st2 →
      (lookupLot st2.positions r.ticker i = none ↔ lot.qty - min (-r.qty) lot.qty = 0)) := by
  refine ⟨allPos_replayList (by simp) h, ?_⟩
  intro r i lot st2 hq hp hl hstep
  exact reduce_removal_iff hq hp hl hstep

/-- Opening event used by the C8 witness. -/
def c8row1 : Row := ⟨1, "2024-01-01", "TSLA", 100, 200, 180, []⟩

/-- Full-close reduction event used by the C8 witness. -/
def c8row2 : Row := ⟨2, "2024-01-02", "TSLA", -100, 220, 0, "id=1".toList⟩

/-- Witness for C8: after replaying one opening event the single open lot has
positive quantity, and a full close removes it exactly because the remaining
quantity hits 0. -/
theorem c8_open_lots_positive_witness :
    0 < ((⟨1, "TSLA", 100, 200, 180⟩ : Lot)).qty ∧
    (lookupLot ([] : List Lot) c8row2.ticker 1 = none ↔
      ((⟨1, "TSLA", 100, 200, 180⟩ : Lot)).qty
        - min (-c8row2.qty) ((⟨1, "TSLA", 100, 200, 180⟩ : Lot)).qty = 0) := by
  have hbuild : buildPortfolio [c8row1] = some ⟨[⟨1, "TSLA", 100, 200, 180⟩], fun _ => 0⟩ := by
    rw [buildPortfolio, replayList, replayStep_open (by norm_num [c8row1] : (0:ℚ) < c8row1.qty)]
    simp [upsert, c8row1, replayList]
  have hc := c8_open_lots_positive [c8row1] ⟨[⟨1, "TSLA", 100, 200, 180⟩], fun _ => 0⟩ hbuild
  refine ⟨hc.1 _ (by simp), ?_⟩
  have hq : c8row2.qty < 0 := by norm_num [c8row2]
  have hp : parseTargetId c8row2.note = some 1 := by decide
  have hl : lookupLot (⟨[⟨1, "TSLA", 100, 200, 180⟩], fun _ => 0⟩ : PState).positions
      c8row2.ticker 1 = some ⟨1, "TSLA", 100, 200, 180⟩ := by
    simp [lookupLot, keyMatch, c8row2]
  have hstep := @replayStep_reduce_found ⟨[⟨1, "TSLA", 100, 200, 180⟩], fun _ => 0⟩
    c8row2 1 ⟨1, "TSLA", 100, 200, 180⟩ hq hp hl
  have hsell : (if ((⟨1, "TSLA", 100, 200, 180⟩ : Lot)).qty < -c8row2.qty
      then ((⟨1, "TSLA", 100, 200, 180⟩ : Lot)).qty else -c8row2.qty) = 100 := by
    norm_num [c8row2]
  rw [hsell] at hstep
  have hz : ((⟨1, "TSLA", 100, 200, 180⟩ : Lot)).qty - 100 = 0 := by norm_num
  rw [if_pos hz] at hstep
  have hrm : removeLot (⟨[⟨1, "TSLA", 100, 200, 180⟩], fun _ => 0⟩ : PState).positions
      c8row2.ticker 1 = [] := by
    simp [removeLot, keyMatch, c8row2]
  rw [hrm] at hstep
  exact hc.2 c8row2 1 ⟨1, "TSLA", 100, 200, 180⟩ _ hq hp hl hstep

/-! ### Claim C4: ghost-instrumented replay -/

/-- Replay state extended with ghost totals for the conservation argument:
`opened t` accumulates the quantities of opening events for ticker `t`, while
`reduced t` accumulates the clamped sell quantities actually applied. -/
structure GState where
  st : PState
  opened : String → ℚ
  reduced : String → ℚ

/-- The replay step of `build_portfolio` with the two ghost totals threaded
through; the `st` component evolves exactly as in `replayStep`. -/
def gStep (g : GState) (r : Row) : Option GState :=
  if 0 < r.qty then
    some { g with
           st := { g.st with
                   positions := upsert g.st.positions ⟨r.id, r.ticker, r.qty, r.price, r.stop⟩ },
           opened := bump g.opened r.ticker r.qty }
  else if r.qty < 0 then
    match parseTargetId r.note with
    | none => none
    | some target =>
      match lookupLot g.st.positions r.ticker target with
      | none => some g
      | some lot =>
        let sell := if lot.qty < -r.qty then lot.qty else -r.qty
        let newQty := lot.qty - sell
        some { st := { positions :=
                         if newQty = 0 then removeLot g.st.positions r.ticker target
                         else setQty g.st.positions r.ticker target newQty,
                       realized := bump g.st.realized r.ticker (sell * (r.price - lot.price)) },
               opened := g.opened,
               reduced := bump g.reduced r.ticker sell }
  else
    match parseTargetId r.note with
    | none => none
    | some target =>
      match lookupLot g.st.positions r.ticker target with
      | none => some g
      | some _ =>
        some { g with
               st := { g.st with
                       positions := setStop g.st.positions r.ticker target r.stop } }

/-- Ghost replay of a row list. -/
def gReplayList (g : GState) : List Row → Option GState
  | [] => some g
  | r :: rs =>
    match gStep g r with
    | none => none
    | some g2 => gReplayList g2 rs

/-- Ghost replay of a whole ledger from the empty initial state. -/
def gReplay (rows : List Row) : Option GState :=
  gReplayList ⟨⟨[], fun _ => 0⟩, fun _ => 0, fun _ => 0⟩ rows

theorem gStep_open {g : GState} {r : Row} (h : 0 < r.qty) :
    gStep g r =
      some { g with
             st := { g.st with
                     positions := upsert g.st.positions ⟨r.id, r.ticker, r.qty, r.price, r.stop⟩ },
             opened := bump g.opened r.ticker r.qty } := by
  simp [gStep, h]

theorem gStep_reduce_found {g : GState} {r : Row} {i : Int} {lot : Lot}
    (hq : r.qty < 0) (hp : parseTargetId r.note = some i)
    (hl : lookupLot g.st.positions r.ticker i = some lot) :
    gStep g r =
      some { st := { positions :=
                       if lot.qty - (if lot.qty < -r.qty then lot.qty else -r.qty) = 0 then
                         removeLot g.st.positions r.ticker i
                       else
                         setQty g.st.positions r.ticker i
                           (lot.qty - (if lot.qty < -r.qty then lot.qty else -r.qty)),
                     realized := bump g.st.realized r.ticker
                       ((if lot.qty < -r.qty then lot.qty else -r.qty) * (r.price - lot.price)) },
             opened := g.opened,
             reduced := bump g.reduced r.ticker
               (if lot.qty < -r.qty then lot.qty else -r.qty) } := by
  have h0 : ¬ 0 < r.qty := by linarith
  simp [gStep, h0, hq, hp, hl]

theorem gStep_reduce_missing {g : GState} {r : Row} {i : Int}
    (hq : r.qty < 0) (hp : parseTargetId r.note = some i)
    (hl : lookupLot g.st.positions r.ticker i = none) :
    gStep g r = some g := by
  have h0 : ¬ 0 < r.qty := by linarith
  simp [gStep, h0, hq, hp, hl]

theorem gStep_reduce_malformed {g : GState} {r : Row}
    (hq : r.qty < 0) (hp : parseTargetId r.note = none) :
    gStep g r = none := by
  have h0 : ¬ 0 < r.qty := by linarith
  simp [gStep, h0, hq, hp]

theorem gStep_stop_found {g : GState} {r : Row} {i : Int} {lot : Lot}
    (hq : r.qty = 0) (hp : parseTargetId r.note = some i)
    (hl : lookupLot g.st.positions r.ticker i = some lot) :
    gStep g r =
      some { g with
             st := { g.st with positions := setStop g.st.positions r.ticker i r.stop } } := by
  have h0 : ¬ 0 < r.qty := by simp [hq]
  have h1 : ¬ r.qty < 0 := by simp [hq]
  simp [gStep, h0, h1, hp, hl]

theorem gStep_stop_missing {g : GState} {r : Row} {i : Int}
    (hq : r.qty = 0) (hp : parseTargetId r.note = some i)
    (hl : lookupLot g.st.positions r.ticker i = none) :
    gStep g r = some g := by
  have h0 : ¬ 0 < r.qty := by simp [hq]
  have h1 : ¬ r.qty < 0 := by simp [hq]
  simp [gStep, h0, h1, hp, hl]

theorem gStep_stop_malformed {g : GState} {r : Row}
    (hq : r.qty = 0) (hp : parseTargetId r.note = none) :
    gStep g r = none := by
  have h0 : ¬ 0 < r.qty := by simp [hq]
  have h1 : ¬ r.qty < 0 := by simp [hq]
  simp [gStep, h0, h1, hp]

theorem gStep_proj (g : GState) (r : Row) :
    (gStep g r).map GState.st = replayStep g.st r := by
  by_cases h1 : 0 < r.qty
  · rw [gStep_open h1, replayStep_open h1, Option.map_some']
  · by_cases h2 : r.qty < 0
    · cases hp : parseTargetId r.note with
      | none => rw [gStep_reduce_malformed h2 hp, replayStep_reduce_malformed h2 hp]; rfl
      | some i =>
        cases hl : lookupLot g.st.positions r.ticker i with
        | none =>
          rw [gStep_reduce_missing h2 hp hl, replayStep_reduce_missing h2 hp hl, Option.map_some']
        | some lot =>
          rw [gStep_reduce_found h2 hp hl, replayStep_reduce_found h2 hp hl, Option.map_some']
    · have h3 : r.qty = 0 := le_antisymm (not_lt.mp h1) (not_lt.mp h2)
      cases hp : parseTargetId r.note with
      | none => rw [gStep_stop_malformed h3 hp, replayStep_stop_malformed h3 hp]; rfl
      | some i =>
        cases hl : lookupLot g.st.positions r.ticker i with
        | none =>
          rw [gStep_stop_missing h3 hp hl, replayStep_stop_missing h3 hp hl, Option.map_some']
        | some lot =>
          rw [gStep_stop_found h3 hp hl, replayStep_stop_found h3 hp hl, Option.map_some']

theorem gReplayList_proj {rows : List Row} {g : GState} :
    (gReplayList g rows).map GState.st = replayList g.st rows := by
  induction rows generalizing g with
  | nil => rfl
  | cons r rs ih =>
    rw [gReplayList, replayList]
    cases hg : gStep g r with
    | none =>
      have := gStep_proj g r
      rw [hg] at this
      rw [← this]
      rfl
    | some g2 =>
      have := gStep_proj g r
      rw [hg, Option.map_some'] at this
      rw [← this, ih]

theorem tickerQty_append (ps qs : List Lot) (t : String) :
    tickerQty (ps ++ qs) t = tickerQty ps t + tickerQty qs t := by
  simp [tickerQty, List.filter_append]

theorem tickerQty_cons (l : Lot) (ps : List Lot) (t : String) :
    tickerQty (l :: ps) t = (if l.ticker = t then l.qty else 0) + tickerQty ps t := by
  by_cases h : l.ticker = t
  · simp [tickerQty, List.filter_cons, h]
  · simp [tickerQty, List.filter_cons, h]

theorem setQty_cons (a : Lot) (as : List Lot) (t : String) (i : Int) (q : ℚ) :
    setQty (a :: as) t i q
      = (if keyMatch t i a then { a with qty := q } else a) :: setQty as t i q := rfl

theorem setStop_cons (a : Lot) (as : List Lot) (t : String) (i : Int) (s : ℚ) :
    setStop (a :: as) t i s
      = (if keyMatch t i a then { a with stop := s } else a) :: setStop as t i s := rfl

theorem setQty_no_match {ps : List Lot} {t : String} {i : Int} (q : ℚ)
    (h : ∀ l ∈ ps, ¬ keyMatch t i l) : setQty ps t i q = ps := by
  induction ps with
  | nil => rfl
  | cons a as ih =>
    rw [setQty_cons, if_neg (h a (by simp)), ih (fun l hl => h l (by simp [hl]))]

theorem removeLot_cons (a : Lot) (as : List Lot) (t : String) (i : Int) :
    removeLot (a :: as) t i
      = if keyMatch t i a then removeLot as t i else a :: removeLot as t i := by
  by_cases hk : keyMatch t i a
  · rw [if_pos hk, removeLot, List.filter_cons_of_neg (by simp [hk])]
    rfl
  · rw [if_neg hk, removeLot, List.filter_cons_of_pos (by simp [hk])]
    rfl

theorem upsert_no_match {ps : List Lot} {nl : Lot}
    (h : ∀ l ∈ ps, ¬ keyMatch nl.ticker nl.id l) : upsert ps nl = ps ++ [nl] := by
  rw [upsert]
  congr 1
  apply List.filter_eq_self.mpr
  intro l hl
  simp [h l hl]

theorem tickerQty_setQty {ps : List Lot} {t : String} {i : Int} {lot : Lot} (q : ℚ) (t2 : String)
    (hnd : (ps.map Lot.id).Nodup) (hl : lookupLot ps t i = some lot) :
    tickerQty (setQty ps t i q) t2
      = tickerQty ps t2 + (if t = t2 then q - lot.qty else 0) := by
  induction ps with
  | nil => simp [lookupLot] at hl
  | cons a as ih =>
    rw [List.map_cons, List.nodup_cons] at hnd
    by_cases hk : keyMatch t i a
    · rw [lookupLot, List.find?_cons_of_pos _ hk] at hl
      cases hl
      have htail : ∀ l ∈ as, ¬ keyMatch t i l := by
        intro l hlmem hkl
        have h1 := (keyMatch_true_iff.mp hkl).2
        have h2 := (keyMatch_true_iff.mp hk).2
        apply hnd.1
        rw [h2, ← h1]
        exact List.mem_map_of_mem Lot.id hlmem
      rw [setQty_cons, if_pos hk, setQty_no_match q htail, tickerQty_cons, tickerQty_cons]
      have hta : lot.ticker = t := (keyMatch_true_iff.mp hk).1
      by_cases ht : t = t2
      · rw [show ({ lot with qty := q } : Lot).ticker = lot.ticker from rfl, hta,
          if_pos ht, if_pos ht, if_pos ht]
        ring
      · rw [show ({ lot with qty := q } : Lot).ticker = lot.ticker from rfl, hta,
          if_neg ht, if_neg ht, if_neg ht]
        ring
    · rw [lookupLot, List.find?_cons_of_neg _ (by simp [hk])] at hl
      rw [setQty_cons, if_neg hk, tickerQty_cons, tickerQty_cons, ih hnd.2 hl]
      ring

theorem tickerQty_removeLot {ps : List Lot} {t : String} {i : Int} {lot : Lot} (t2 : String)
    (hnd : (ps.map Lot.id).Nodup) (hl : lookupLot ps t i = some lot) :
    tickerQty (removeLot ps t i) t2
      = tickerQty ps t2 - (if t = t2 then lot.qty else 0) := by
  induction ps with
  | nil => simp [lookupLot] at hl
  | cons a as ih =>
    rw [List.map_cons, List.nodup_cons] at hnd
    by_cases hk : keyMatch t i a
    · rw [lookupLot, List.find?_cons_of_pos _ hk] at hl
      cases hl
      have htail : ∀ l ∈ as, ¬ keyMatch t i l := by
        intro l hlmem hkl
        have h1 := (keyMatch_true_iff.mp hkl).2
        have h2 := (keyMatch_true_iff.mp hk).2
        apply hnd.1
        rw [h2, ← h1]
        exact List.mem_map_of_mem Lot.id hlmem
      have hrm : removeLot as t i = as := by
        rw [removeLot]
        apply List.filter_eq_self.mpr
        intro l hlm
        simp [htail l hlm]
      rw [removeLot_cons, if_pos hk, hrm, tickerQty_cons]
      have hta : lot.ticker = t := (keyMatch_true_iff.mp hk).1
      by_cases ht : t = t2
      · rw [hta, if_pos ht]
        ring
      · rw [hta, if_neg ht]
        ring
    · rw [lookupLot, List.find?_cons_of_neg _ (by simp [hk])] at hl
      rw [removeLot_cons, if_neg hk, tickerQty_cons, tickerQty_cons, ih hnd.2 hl]
      ring

theorem tickerQty_setStop (ps : List Lot) (t : String) (i : Int) (s : ℚ) (t2 : String) :
    tickerQty (setStop ps t i s) t2 = tickerQty ps t2 := by
  induction ps with
  | nil => rfl
  | cons a as ih =>
    rw [setStop_cons, tickerQty_cons, tickerQty_cons, ih]
    by_cases hk : keyMatch t i a
    · rw [if_pos hk]
    · rw [if_neg hk]

theorem map_id_setQty (ps : List Lot) (t : String) (i : Int) (q : ℚ) :
    (setQty ps t i q).map Lot.id = ps.map Lot.id := by
  induction ps with
  | nil => rfl
  | cons a as ih =>
    rw [setQty_cons, List.map_cons, List.map_cons, ih]
    by_cases hk : keyMatch t i a
    · rw [if_pos hk]
    · rw [if_neg hk]

theorem map_id_setStop (ps : List Lot) (t : String) (i : Int) (s : ℚ) :
    (setStop ps t i s).map Lot.id = ps.map Lot.id := by
  induction ps with
  | nil => rfl
  | cons a as ih =>
    rw [setStop_cons, List.map_cons, List.map_cons, ih]
    by_cases hk : keyMatch t i a
    · rw [if_pos hk]
    · rw [if_neg hk]

theorem map_id_removeLot_sublist (ps : List Lot) (t : String) (i : Int) :
    ((removeLot ps t i).map Lot.id).Sublist (ps.map Lot.id) :=
  List.Sublist.map Lot.id (List.filter_sublist ps)

theorem tickerQty_nil (t : String) : tickerQty [] t = 0 := rfl

theorem fresh_mono {ps2 ps : List Lot} {rs : List Row}
    (hsub : ∀ x, x ∈ ps2.map Lot.id → x ∈ ps.map Lot.id)
    (hfresh : ∀ l ∈ ps, ∀ r ∈ rs, l.id < r.id) :
    ∀ l ∈ ps2, ∀ r ∈ rs, l.id < r.id := by
  intro l hl r hr
  have hm : l.id ∈ ps.map Lot.id := hsub _ (List.mem_map_of_mem _ hl)
  rcases List.mem_map.mp hm with ⟨l0, hl0, he⟩
  rw [← he]
  exact hfresh l0 hl0 r hr

/-- Quantity-conservation invariant of the ghost replay. -/
def conservedG (g : GState) : Prop :=
  ∀ t, tickerQty g.st.positions t + g.reduced t = g.opened t

theorem conserve_gReplayList {rows : List Row} {g g2 : GState}
    (hpair : rows.Pairwise (fun a b => a.id < b.id))
    (hfresh : ∀ l ∈ g.st.positions, ∀ r ∈ rows, l.id < r.id)
    (hnd : (g.st.positions.map Lot.id).Nodup)
    (hc : conservedG g)
    (h : gReplayList g rows = some g2) :
    conservedG g2 := by
  induction rows generalizing g with
  | nil =>
    rw [gReplayList] at h
    cases h
    exact hc
  | cons r rs ihr =>
    rw [gReplayList] at h
    rw [List.pairwise_cons] at hpair
    have hfreshtail : ∀ l ∈ g.st.positions, ∀ r2 ∈ rs, l.id < r2.id :=
      fun l hl r2 hr2 => hfresh l hl r2 (by simp [hr2])
    cases hg : gStep g r with
    | none => rw [hg] at h; cases h
    | some gm =>
      rw [hg] at h
      by_cases h1 : 0 < r.qty
      · rw [gStep_open h1] at hg
        have hnomatch : ∀ l ∈ g.st.positions, ¬ keyMatch r.ticker r.id l := by
          intro l hl hkl
          have hid := (keyMatch_true_iff.mp hkl).2
          have hlt := hfresh l hl r (by simp)
          rw [hid] at hlt
          exact lt_irrefl _ hlt
        rw [upsert_no_match hnomatch] at hg
        cases hg
        apply ihr hpair.2 ?freshg ?nodupg ?consg h
        case freshg =>
          intro l hl r2 hr2
          rcases List.mem_append.mp hl with hm | hm
          · exact hfreshtail l hm r2 hr2
          · simp only [List.mem_singleton] at hm
            rw [hm]
            exact hpair.1 r2 hr2
        case nodupg =>
          rw [List.map_append]
          simp only [List.map_cons, List.map_nil]
          rw [List.nodup_append]
          refine ⟨hnd, List.nodup_singleton _, ?_⟩
          intro x hx
          simp only [List.mem_singleton]
          rcases List.mem_map.mp hx with ⟨l0, hl0, he⟩
          have hlt := hfresh l0 hl0 r (by simp)
          rw [he] at hlt
          intro hxe
          rw [hxe] at hlt
          exact lt_irrefl _ hlt
        case consg =>
          intro t
          simp only
          rw [tickerQty_append, tickerQty_cons, tickerQty_nil]
          have hb : bump g.opened r.ticker r.qty t
              = if t = r.ticker then g.opened t + r.qty else g.opened t := rfl
          rw [hb]
          by_cases ht : t = r.ticker
          · rw [if_pos ht, if_pos (show (⟨r.id, r.ticker, r.qty, r.price, r.stop⟩ : Lot).ticker = t from ht.symm)]
            have := hc t
            linarith [hc t]
          · rw [if_neg ht, if_neg (show ¬ (⟨r.id, r.ticker, r.qty, r.price, r.stop⟩ : Lot).ticker = t from fun he => ht he.symm)]
            have := hc t
            linarith [hc t]
      · by_cases h2 : r.qty < 0
        · cases hp : parseTargetId r.note with
          | none =>
            rw [gStep_reduce_malformed h2 hp] at hg
            cases hg
          | some i =>
            cases hl : lookupLot g.st.positions r.ticker i with
            | none =>
              rw [gStep_reduce_missing h2 hp hl] at hg
              cases hg
              exact ihr hpair.2 hfreshtail hnd hc h
            | some lot =>
              rw [gStep_reduce_found h2 hp hl] at hg
              cases hg
              by_cases h0 : lot.qty - (if lot.qty < -r.qty then lot.qty else -r.qty) = 0
              · apply ihr hpair.2 ?freshr ?nodupr ?consr h
                case freshr =>
                  refine fresh_mono (fun x hx => ?_) hfreshtail
                  rw [if_pos h0] at hx
                  exact (map_id_removeLot_sublist g.st.positions r.ticker i).subset hx
                case nodupr =>
                  rw [if_pos h0]
                  exact hnd.sublist (map_id_removeLot_sublist g.st.positions r.ticker i)
                case consr =>
                  intro t
                  simp only
                  rw [if_pos h0]
                  rw [tickerQty_removeLot t hnd hl]
                  have hsell : (if lot.qty < -r.qty then lot.qty else -r.qty) = lot.qty := by
                    linarith
                  have hb : bump g.reduced r.ticker (if lot.qty < -r.qty then lot.qty else -r.qty) t
                      = if t = r.ticker then g.reduced t + (if lot.qty < -r.qty then lot.qty else -r.qty)
                        else g.reduced t := rfl
                  rw [hb, hsell]
                  by_cases ht : t = r.ticker
                  · rw [if_pos ht, if_pos ht.symm]
                    linarith [hc t]
                  · rw [if_neg ht, if_neg (fun he => ht he.symm)]
                    linarith [hc t]
              · apply ihr hpair.2 ?freshs ?nodups ?conss h
                case freshs =>
                  refine fresh_mono (fun x hx => ?_) hfreshtail
                  rw [if_neg h0] at hx
                  rw [map_id_setQty] at hx
                  exact hx
                case nodups =>
                  rw [if_neg h0, map_id_setQty]
                  exact hnd
                case conss =>
                  intro t
                  simp only
                  rw [if_neg h0]
                  rw [tickerQty_setQty _ t hnd hl]
                  have hb : bump g.reduced r.ticker (if lot.qty < -r.qty then lot.qty else -r.qty) t
                      = if t = r.ticker then g.reduced t + (if lot.qty < -r.qty then lot.qty else -r.qty)
                        else g.reduced t := rfl
                  rw [hb]
                  by_cases ht : t = r.ticker
                  · rw [if_pos ht, if_pos ht.symm]
                    have := hc t
                    by_cases hc2 : lot.qty < -r.qty
                    · rw [if_pos hc2] at *
                      linarith
                    · rw [if_neg hc2] at *
                      linarith
                  · rw [if_neg ht, if_neg (fun he => ht he.symm)]
                    linarith [hc t]
        · have h3 : r.qty = 0 := le_antisymm (not_lt.mp h1) (not_lt.mp h2)
          cases hp : parseTargetId r.note with
          | none =>
            rw [gStep_stop_malformed h3 hp] at hg
            cases hg
          | some i =>
            cases hl : lookupLot g.st.positions r.ticker i with
            | none =>
              rw [gStep_stop_missing h3 hp hl] at hg
              cases hg
              exact ihr hpair.2 hfreshtail hnd hc h
            | some lot =>
              rw [gStep_stop_found h3 hp hl] at hg
              cases hg
              apply ihr hpair.2 ?fresht ?nodupt ?const h
              case fresht =>
                refine fresh_mono (fun x hx => ?_) hfreshtail
                rw [map_id_setStop] at hx
                exact hx
              case nodupt =>
                rw [map_id_setStop]
                exact hnd
              case const =>
                intro t
                simp only
                rw [tickerQty_setStop]
                exact hc t

/-- C4: for every event sequence with strictly increasing ids (hence unique),
after a successful replay of any such prefix the open quantity of a ticker
plus the total actually-reduced quantity (clamped sells) equals the total
opened quantity.  The first conjunct ties the ghost replay back to
`build_portfolio`. -/
theorem c4_quantity_conservation (rows : List Row) (g : GState) (t : String)
    (hpair : rows.Pairwise (fun a b => a.id < b.id))
    (h : gReplay rows = some g) :
    buildPortfolio rows = some g.st ∧
    tickerQty g.st.positions t + g.reduced t = g.opened t := by
  rw [gReplay] at h
  constructor
  · have hp := @gReplayList_proj rows ⟨⟨[], fun _ => 0⟩, fun _ => 0, fun _ => 0⟩
    rw [h, Option.map_some'] at hp
    rw [buildPortfolio]
    exact hp.symm
  · exact conserve_gReplayList hpair (by simp) (by simp)
      (fun t2 => by simp [tickerQty]) h t

/-- Opening event used by the C4 witness. -/
def c4row1 : Row := ⟨1, "2024-01-01", "TSLA", 100, 200, 180, []⟩

/-- Partial-sell event used by the C4 witness. -/
def c4row2 : Row := ⟨2, "2024-01-02", "TSLA", -30, 220, 0, "id=1".toList⟩

/-- Ghost state reached after replaying the two C4 witness events. -/
def gC4 : GState :=
  ⟨⟨[⟨1, "TSLA", 70, 200, 180⟩], bump (fun _ => 0) "TSLA" (30 * (c4row2.price - 200))⟩,
   bump (fun _ => 0) "TSLA" c4row1.qty,
   bump (fun _ => 0) "TSLA" 30⟩

theorem c4_ghost_eval : gReplay [c4row1, c4row2] = some gC4 := by
  have hs1 : gStep ⟨⟨[], fun _ => 0⟩, fun _ => 0, fun _ => 0⟩ c4row1
      = some ⟨⟨[⟨1, "TSLA", 100, 200, 180⟩], fun _ => 0⟩,
              bump (fun _ => 0) "TSLA" c4row1.qty, fun _ => 0⟩ := by
    rw [gStep_open (by norm_num [c4row1])]
    simp [upsert, c4row1]
  have hq2 : c4row2.qty < 0 := by norm_num [c4row2]
  have hp2 : parseTargetId c4row2.note = some 1 := by decide
  have hl2 : lookupLot (⟨[⟨1, "TSLA", 100, 200, 180⟩], fun _ => 0⟩ : PState).positions
      c4row2.ticker 1 = some ⟨1, "TSLA", 100, 200, 180⟩ := by
    simp [lookupLot, keyMatch, c4row2]
  have hs2 := @gStep_reduce_found
    ⟨⟨[⟨1, "TSLA", 100, 200, 180⟩], fun _ => 0⟩, bump (fun _ => 0) "TSLA" c4row1.qty, fun _ => 0⟩
    c4row2 1 ⟨1, "TSLA", 100, 200, 180⟩ hq2 hp2 hl2
  have hsell : (if ((⟨1, "TSLA", 100, 200, 180⟩ : Lot)).qty < -c4row2.qty
      then ((⟨1, "TSLA", 100, 200, 180⟩ : Lot)).qty else -c4row2.qty) = 30 := by
    norm_num [c4row2]
  rw [hsell] at hs2
  have hnz : ¬ (((⟨1, "TSLA", 100, 200, 180⟩ : Lot)).qty - 30 = 0) := by norm_num
  rw [if_neg hnz] at hs2
  have hpos : setQty (⟨[⟨1, "TSLA", 100, 200, 180⟩], fun _ => 0⟩ : PState).positions
      c4row2.ticker 1 (((⟨1, "TSLA", 100, 200, 180⟩ : Lot)).qty - 30)
      = [⟨1, "TSLA", 70, 200, 180⟩] := by
    norm_num [setQty, keyMatch, c4row2]
  rw [hpos] at hs2
  rw [gReplay, gReplayList, hs1]
  show gReplayList _ [c4row2] = some gC4
  rw [gReplayList, hs2]
  show some _ = some gC4
  rfl

/-- Witness for C4: after replaying an opening of 100 shares and a partial
sell of 30, the open quantity 70 plus the reduced total 30 equals the opened
total 100. -/
theorem c4_quantity_conservation_witness :
    buildPortfolio [c4row1, c4row2] = some gC4.st ∧
    tickerQty gC4.st.positions "TSLA" + gC4.reduced "TSLA" = gC4.opened "TSLA" :=
  c4_quantity_conservation [c4row1, c4row2] gC4 "TSLA" (by decide) c4_ghost_eval

/-! ### Mutation planner embedding -/

/-- Embedding of `next_row_id` (lines 84-87): `max(ids) + 1`, or 1 for an
empty ledger. -/
def nextRowId (rows : List Row) : Int :=
  match rows with
  | [] => 1
  | r :: rs => (rs.map Row.id).foldl max r.id + 1

/-- Decimal digit characters, used to embed Python string formatting of
integers. -/
def digitChar (n : Nat) : Char :=
  if n = 0 then '0' else if n = 1 then '1' else if n = 2 then '2'
  else if n = 3 then '3' else if n = 4 then '4' else if n = 5 then '5'
  else if n = 6 then '6' else if n = 7 then '7' else if n = 8 then '8' else '9'

/-- Decimal expansion of a natural number (Python `str` of a non-negative
int). -/
def natToChars (n : Nat) : List Char :=
  if _h : n < 10 then [digitChar n]
  else natToChars (n / 10) ++ [digitChar (n % 10)]
termination_by n
decreasing_by exact Nat.div_lt_self (by omega) (by omega)

/-- Python `str` of an int: optional minus sign followed by decimal digits. -/
def intToChars (i : Int) : List Char :=
  if i < 0 then '-' :: natToChars i.natAbs else natToChars i.toNat

/-- Note emitted by `cmd_split`:
`f"split from id={args.id} part {idx}/{total_rows}"` (lines 320, 328, 337). -/
def splitNote (lotId : Int) (idx total : Nat) : List Char :=
  "split from id=".toList ++ intToChars lotId ++ " part ".toList
    ++ natToChars idx ++ "/".toList ++ natToChars total

/-- Note emitted by `cmd_trim`: `f"trim id={args.id}"` plus the optional user
note (line 213). -/
def trimNote (lotId : Int) (unote : List Char) : List Char :=
  "trim id=".toList ++ intToChars lotId ++ (if unote = [] then [] else ' ' :: unote)

/-- Embedding of `cmd_trim` (lines 192-224): `none` models "no row appended"
(lot not found, over-sell rejection, or a replay crash); `some row` is the
single appended reduction row. -/
def cmdTrim (rows : List Row) (ticker : String) (lotId : Int) (q price : ℚ)
    (date : String) (unote : List Char) : Option Row :=
  match buildPortfolio rows with
  | none => none
  | some st =>
    match lookupLot st.positions ticker lotId with
    | none => none
    | some lot =>
      if lot.qty < q then none
      else some ⟨nextRowId rows, date, ticker, -q, price, 0, trimNote lotId unote⟩

/-- Rows opening the sub-lots for `parts[1:]` of a split (loop at lines
336-342): one opening row per remaining part, at the original entry price. -/
def splitOpenRows (lotPrice : ℚ) (lotId : Int) (ticker date : String)
    (rowId : Int) (idx total : Nat) : List (ℚ × ℚ) → List Row
  | [] => []
  | (q, s) :: rest =>
    ⟨rowId, date, ticker, q, lotPrice, s, splitNote lotId idx total⟩
      :: splitOpenRows lotPrice lotId ticker date (rowId + 1) (idx + 1) total rest

/-- Embedding of the validation and row construction of `cmd_split` (lines
287-345) against the reconstructed state.  Each entry of `tokens` carries the
parse result of one `qty:stop` token (`none` = the token failed to split or
parse as decimals); a `none` result means the split is rejected and nothing is
appended.  The Python code builds `rows_to_append` completely before appending
anything, so a successful plan is the full row batch. -/
def splitPlan (st : PState) (ticker : String) (lotId : Int)
    (tokens : List (Option (ℚ × ℚ))) (date : String) (rowId : Int) :
    Option (List Row) :=
  match lookupLot st.positions ticker lotId with
  | none => none
  | some lot =>
    if lot.qty = 0 then none
    else
      match tokens.mapM id with
      | none => none
      | some parts =>
        if (parts.map Prod.fst).sum ≠ lot.qty then none
        else if ¬ (parts.map Prod.snd).Nodup then none
        else
          let total := parts.length + 1
          match parts with
          | [] => none
          | (q0, s0) :: rest =>
            some (⟨rowId, date, ticker, -(lot.qty - q0), lot.price, 0,
                    splitNote lotId 1 total⟩
              :: ⟨rowId + 1, date, ticker, 0, 0, s0, splitNote lotId 2 total⟩
              :: splitOpenRows lot.price lotId ticker date (rowId + 2) 3 total rest)

/-- Embedding of `cmd_split` (lines 282-346): reconstruct the state from the
ledger, validate, and return the batch of rows to append (`none` = nothing is
appended). -/
def cmdSplit (rows : List Row) (ticker : String) (lotId : Int)
    (tokens : List (Option (ℚ × ℚ))) (date : String) : Option (List Row) :=
  match buildPortfolio rows with
  | none => none
  | some st => splitPlan st ticker lotId tokens date (nextRowId rows)

/-! ### Claim C6 -/

theorem mapM_id_nil (α : Type) : ([] : List (Option α)).mapM id = some [] := by
  rw [← List.mapM'_eq_mapM]
  rfl

theorem mapM_id_cons {α : Type} (a : Option α) (as : List (Option α)) :
    (a :: as).mapM id = a.bind (fun x => (as.mapM id).map (fun xs => x :: xs)) := by
  rw [← List.mapM'_eq_mapM, List.mapM'_cons, List.mapM'_eq_mapM]
  cases a <;> cases h : as.mapM id <;> simp [h]

theorem mapM_id_eq_none_iff {α : Type} (ts : List (Option α)) :
    ts.mapM id = none ↔ none ∈ ts := by
  induction ts with
  | nil =>
    rw [mapM_id_nil]
    simp
  | cons a as ih =>
    rw [mapM_id_cons]
    cases a with
    | none => simp
    | some x =>
      rw [Option.some_bind]
      cases h : as.mapM id with
      | none =>
        have hmem := ih.mp h
        simp [hmem]
      | some xs =>
        have hnmem : ¬ (none ∈ as) := by
          intro hc
          rw [← ih, h] at hc
          cases hc
        simp [hnmem]

theorem splitPlan_no_lot {st : PState} {ticker : String} {lotId : Int}
    (tokens : List (Option (ℚ × ℚ))) (date : String) (rowId : Int)
    (hlook : lookupLot st.positions ticker lotId = none) :
    splitPlan st ticker lotId tokens date rowId = none := by
  simp only [splitPlan, hlook]

theorem splitPlan_zero_lot {st : PState} {ticker : String} {lotId : Int} {lot : Lot}
    (tokens : List (Option (ℚ × ℚ))) (date : String) (rowId : Int)
    (hlook : lookupLot st.positions ticker lotId = some lot) (hq0 : lot.qty = 0) :
    splitPlan st ticker lotId tokens date rowId = none := by
  simp only [splitPlan, hlook, if_pos hq0]

theorem splitPlan_bad_token {st : PState} {ticker : String} {lotId : Int} {lot : Lot}
    {tokens : List (Option (ℚ × ℚ))} (date : String) (rowId : Int)
    (hlook : lookupLot st.positions ticker lotId = some lot) (hq0 : ¬ lot.qty = 0)
    (hmap : tokens.mapM id = none) :
    splitPlan st ticker lotId tokens date rowId = none := by
  simp only [splitPlan, hlook, if_neg hq0, hmap]

theorem splitPlan_bad_sum {st : PState} {ticker : String} {lotId : Int} {lot : Lot}
    {tokens : List (Option (ℚ × ℚ))} {parts : List (ℚ × ℚ)} (date : String) (rowId : Int)
    (hlook : lookupLot st.positions ticker lotId = some lot) (hq0 : ¬ lot.qty = 0)
    (hmap : tokens.mapM id = some parts) (hsum : (parts.map Prod.fst).sum ≠ lot.qty) :
    splitPlan st ticker lotId tokens date rowId = none := by
  simp only [splitPlan, hlook, if_neg hq0, hmap, if_pos hsum]

theorem splitPlan_dup_stops {st : PState} {ticker : String} {lotId : Int} {lot : Lot}
    {tokens : List (Option (ℚ × ℚ))} {parts : List (ℚ × ℚ)} (date : String) (rowId : Int)
    (hlook : lookupLot st.positions ticker lotId = some lot) (hq0 : ¬ lot.qty = 0)
    (hmap : tokens.mapM id = some parts) (hdup : ¬ (parts.map Prod.snd).Nodup) :
    splitPlan st ticker lotId tokens date rowId = none := by
  by_cases hsum : (parts.map Prod.fst).sum ≠ lot.qty
  · simp only [splitPlan, hlook, if_neg hq0, hmap, if_pos hsum]
  · simp only [splitPlan, hlook, if_neg hq0, hmap, if_neg hsum, if_pos hdup]

theorem splitPlan_success {st : PState} {ticker : String} {lotId : Int} {lot : Lot}
    {tokens : List (Option (ℚ × ℚ))} {q0 s0 : ℚ} {rest : List (ℚ × ℚ)}
    (date : String) (rowId : Int)
    (hlook : lookupLot st.positions ticker lotId = some lot) (hq0 : ¬ lot.qty = 0)
    (hmap : tokens.mapM id = some ((q0, s0) :: rest))
    (hsum : (((q0, s0) :: rest).map Prod.fst).sum = lot.qty)
    (hnodup : (((q0, s0) :: rest).map Prod.snd).Nodup) :
    splitPlan st ticker lotId tokens date rowId =
      some (⟨rowId, date, ticker, -(lot.qty - q0), lot.price, 0,
              splitNote lotId 1 (rest.length + 2)⟩
        :: ⟨rowId + 1, date, ticker, 0, 0, s0, splitNote lotId 2 (rest.length + 2)⟩
        :: splitOpenRows lot.price lotId ticker date (rowId + 2) 3 (rest.length + 2) rest) := by
  have hsum2 : ¬ ((((q0, s0) :: rest).map Prod.fst).sum ≠ lot.qty) := fun hc => hc hsum
  simp only [splitPlan, hlook, if_neg hq0, hmap, if_neg hsum2, if_neg (not_not.mpr hnodup),
    List.length_cons]

/-- C6: `cmd_split` performs all validation before returning any row batch —
the plan is `none` (nothing appended, no partial writes) exactly when the
target lot is missing, or has zero quantity, or some part token fails to
parse, or the part quantities do not sum to the lot's remaining quantity, or
two parts share a stop value. -/
theorem c6_split_all_or_nothing (st : PState) (ticker : String) (lotId : Int)
    (tokens : List (Option (ℚ × ℚ))) (date : String) (rowId : Int) :
    splitPlan st ticker lotId tokens date rowId = none ↔
      (lookupLot st.positions ticker lotId = none ∨
        ∃ lot, lookupLot st.positions ticker lotId = some lot ∧
          (lot.qty = 0 ∨ none ∈ tokens ∨
            ∃ parts, tokens.mapM id = some parts ∧
              ((parts.map Prod.fst).sum ≠ lot.qty ∨ ¬ (parts.map Prod.snd).Nodup))) := by
  constructor
  · intro hnone
    cases hlook : lookupLot st.positions ticker lotId with
    | none => exact Or.inl rfl
    | some lot =>
      refine Or.inr ⟨lot, rfl, ?_⟩
      by_cases hq0 : lot.qty = 0
      · exact Or.inl hq0
      · cases hmap : tokens.mapM id with
        | none => exact Or.inr (Or.inl ((mapM_id_eq_none_iff tokens).mp hmap))
        | some parts =>
          refine Or.inr (Or.inr ⟨parts, rfl, ?_⟩)
          by_cases hsum : (parts.map Prod.fst).sum ≠ lot.qty
          · exact Or.inl hsum
          · by_cases hdup : (parts.map Prod.snd).Nodup
            · exfalso
              push_neg at hsum
              cases parts with
              | nil =>
                apply hq0
                rw [← hsum]
                simp
              | cons p0 rest =>
                cases p0 with
                | mk q0 s0 =>
                  rw [splitPlan_success date rowId hlook hq0 hmap hsum hdup] at hnone
                  cases hnone
            · exact Or.inr hdup
  · rintro (hlook | ⟨lot, hlook, hbad⟩)
    · exact splitPlan_no_lot tokens date rowId hlook
    · by_cases hq0 : lot.qty = 0
      · exact splitPlan_zero_lot tokens date rowId hlook hq0
      · rcases hbad with h | h | ⟨parts, hmap, hbad2⟩
        · exact absurd h hq0
        · exact splitPlan_bad_token date rowId hlook hq0 ((mapM_id_eq_none_iff tokens).mpr h)
        · rcases hbad2 with h | h
          · exact splitPlan_bad_sum date rowId hlook hq0 hmap h
          · exact splitPlan_dup_stops date rowId hlook hq0 hmap h

/-! ### Claim C9 -/

/-- Opening event of a 70-share lot, used for the C9 counterexample. -/
def c9row1 : Row := ⟨1, "2024-01-01", "TSLA", 70, 200, 180, []⟩

theorem c9_build : buildPortfolio [c9row1] = some ⟨[⟨1, "TSLA", 70, 200, 180⟩], fun _ => 0⟩ := by
  rw [buildPortfolio, replayList, replayStep_open (by norm_num [c9row1] : (0:ℚ) < c9row1.qty)]
  simp [upsert, c9row1, replayList]

/-- Counterexample to C9: a split request with a single part (fewer than two)
whose quantity matches the lot passes every check of `cmd_split` and appends
two events (a zero-quantity trim row and a stop-move row) — it is not
rejected. -/
theorem c9_single_part_split_accepted :
    (cmdSplit [c9row1] "TSLA" 1 [some (70, 190)] "2024-01-02").map (fun l => l.map Row.qty)
      = some [0, 0] := by
  have hlook : lookupLot (⟨[⟨1, "TSLA", 70, 200, 180⟩], fun _ => 0⟩ : PState).positions
      "TSLA" 1 = some ⟨1, "TSLA", 70, 200, 180⟩ := by
    simp [lookupLot, keyMatch]
  have hq0 : ¬ ((⟨1, "TSLA", 70, 200, 180⟩ : Lot)).qty = 0 := by norm_num
  have hmap : ([some ((70:ℚ), (190:ℚ))] : List (Option (ℚ × ℚ))).mapM id
      = some [((70:ℚ), (190:ℚ))] := by
    simp only [mapM_id_cons, mapM_id_nil, Option.some_bind, Option.map_some']
  have hsum : (([((70:ℚ), (190:ℚ))]).map Prod.fst).sum
      = ((⟨1, "TSLA", 70, 200, 180⟩ : Lot)).qty := by
    norm_num
  have hnodup : (([((70:ℚ), (190:ℚ))]).map Prod.snd).Nodup := by simp
  have hplan := splitPlan_success "2024-01-02" (nextRowId [c9row1]) hlook hq0 hmap hsum hnodup
  simp only [cmdSplit, c9_build, hplan, splitOpenRows, Option.map_some', List.map_cons,
    List.map_nil]
  norm_num

/-- C9 (amended): a split request with an *empty* parts string is always
rejected (the empty sum 0 cannot match the positive lot quantity), but a
single-part request whose quantity equals the lot's remaining quantity passes
validation and plans 2 events — `cmd_split` never enforces N ≥ 2. -/
theorem c9_empty_rejected_single_accepted (st : PState) (ticker : String)
    (lotId : Int) (date : String) (rowId : Int) :
    splitPlan st ticker lotId [] date rowId = none ∧
    (∀ lot s, lookupLot st.positions ticker lotId = some lot → lot.qty ≠ 0 →
      (splitPlan st ticker lotId [some (lot.qty, s)] date rowId).map List.length = some 2) := by
  constructor
  · cases hlook : lookupLot st.positions ticker lotId with
    | none => exact splitPlan_no_lot [] date rowId hlook
    | some lot =>
      by_cases hq0 : lot.qty = 0
      · exact splitPlan_zero_lot [] date rowId hlook hq0
      · refine splitPlan_bad_sum date rowId hlook hq0 (mapM_id_nil _) ?_
        intro hc
        apply hq0
        rw [← hc]
        simp
  · intro lot s hlook hq0
    have hmap : ([some (lot.qty, s)] : List (Option (ℚ × ℚ))).mapM id
        = some [(lot.qty, s)] := by
      simp only [mapM_id_cons, mapM_id_nil, Option.some_bind, Option.map_some']
    have hsum : (([(lot.qty, s)]).map Prod.fst).sum = lot.qty := by simp
    have hnodup : (([(lot.qty, s)]).map Prod.snd).Nodup := by simp
    rw [splitPlan_success date rowId hlook hq0 hmap hsum hnodup]
    simp [splitOpenRows]

/-- Witness for the amended C9 on a concrete one-lot state. -/
theorem c9_empty_rejected_single_accepted_witness :
    splitPlan ⟨[⟨1, "TSLA", 70, 200, 180⟩], fun _ => 0⟩ "TSLA" 1 [] "2024-01-02" 2 = none ∧
    (splitPlan ⟨[⟨1, "TSLA", 70, 200, 180⟩], fun _ => 0⟩ "TSLA" 1 [some (70, 190)]
        "2024-01-02" 2).map List.length = some 2 := by
  have hc := c9_empty_rejected_single_accepted ⟨[⟨1, "TSLA", 70, 200, 180⟩], fun _ => 0⟩
    "TSLA" 1 "2024-01-02" 2
  refine ⟨hc.1, ?_⟩
  exact hc.2 ⟨1, "TSLA", 70, 200, 180⟩ 190 (by simp [lookupLot, keyMatch]) (by norm_num)

/-! ### Claim C10 -/

theorem le_foldl_max_init (b : Int) (l : List Int) : b ≤ l.foldl max b := by
  induction l generalizing b with
  | nil => exact le_refl b
  | cons x xs ih => exact le_trans (le_max_left b x) (ih (max b x))

theorem le_foldl_max_mem (b : Int) (l : List Int) : ∀ a ∈ l, a ≤ l.foldl max b := by
  induction l generalizing b with
  | nil =>
    intro a ha
    cases ha
  | cons x xs ih =>
    intro a ha
    rcases List.mem_cons.mp ha with he | ha
    · rw [he]
      exact le_trans (le_max_right b x) (le_foldl_max_init _ _)
    · exact ih (max b x) a ha

theorem row_id_lt_nextRowId {rows : List Row} : ∀ r ∈ rows, r.id < nextRowId rows := by
  cases rows with
  | nil =>
    intro r hr
    cases hr
  | cons r0 rs =>
    intro r hr
    rw [nextRowId]
    rcases List.mem_cons.mp hr with he | hr
    · rw [he]
      have := le_foldl_max_init r0.id (rs.map Row.id)
      omega
    · have := le_foldl_max_mem r0.id (rs.map Row.id) r.id (List.mem_map_of_mem Row.id hr)
      omega

theorem lot_ids_step {st st2 : PState} {r : Row} (hstep : replayStep st r = some st2) :
    ∀ l ∈ st2.positions, (∃ l0 ∈ st.positions, l.id = l0.id) ∨ l.id = r.id := by
  by_cases h1 : 0 < r.qty
  · rw [replayStep_open h1] at hstep
    cases hstep
    intro l hl
    rcases mem_upsert hl with h | h
    · exact Or.inl ⟨l, h, rfl⟩
    · rw [h]
      exact Or.inr rfl
  · by_cases h2 : r.qty < 0
    · cases hp : parseTargetId r.note with
      | none => rw [replayStep_reduce_malformed h2 hp] at hstep; cases hstep
      | some i =>
        cases hl : lookupLot st.positions r.ticker i with
        | none =>
          rw [replayStep_reduce_missing h2 hp hl] at hstep
          cases hstep
          intro l hmem
          exact Or.inl ⟨l, hmem, rfl⟩
        | some lot =>
          rw [replayStep_reduce_found h2 hp hl] at hstep
          cases hstep
          intro l hmem
          simp only at hmem
          by_cases h0 : lot.qty - (if lot.qty < -r.qty then lot.qty else -r.qty) = 0
          · rw [if_pos h0] at hmem
            exact Or.inl ⟨l, List.mem_of_mem_filter hmem, rfl⟩
          · rw [if_neg h0] at hmem
            rcases List.mem_map.mp hmem with ⟨l0, hl0, heq⟩
            refine Or.inl ⟨l0, hl0, ?_⟩
            rw [← heq]
            by_cases hk : keyMatch r.ticker i l0
            · rw [if_pos hk]
            · rw [if_neg hk]
    · have h3 : r.qty = 0 := le_antisymm (not_lt.mp h1) (not_lt.mp h2)
      cases hp : parseTargetId r.note with
      | none => rw [replayStep_stop_malformed h3 hp] at hstep; cases hstep
      | some i =>
        cases hl : lookupLot st.positions r.ticker i with
        | none =>
          rw [replayStep_stop_missing h3 hp hl] at hstep
          cases hstep
          intro l hmem
          exact Or.inl ⟨l, hmem, rfl⟩
        | some lot =>
          rw [replayStep_stop_found h3 hp hl] at hstep
          cases hstep
          intro l hmem
          simp only at hmem
          rcases List.mem_map.mp hmem with ⟨l0, hl0, heq⟩
          refine Or.inl ⟨l0, hl0, ?_⟩
          rw [← heq]
          by_cases hk : keyMatch r.ticker i l0
          · rw [if_pos hk]
          · rw [if_neg hk]

theorem lot_ids_replayList {rows : List Row} {st st2 : PState}
    (h : replayList st rows = some st2) :
    ∀ l ∈ st2.positions, (∃ l0 ∈ st.positions, l.id = l0.id) ∨ ∃ r ∈ rows, l.id = r.id := by
  induction rows generalizing st with
  | nil =>
    rw [replayList] at h
    cases h
    intro l hl
    exact Or.inl ⟨l, hl, rfl⟩
  | cons r rs ih =>
    rw [replayList] at h
    cases hstep : replayStep st r with
    | none => rw [hstep] at h; cases h
    | some stm =>
      rw [hstep] at h
      intro l hl
      rcases ih h l hl with ⟨l0, hl0, he⟩ | ⟨r2, hr2, he⟩
      · rcases lot_ids_step hstep l0 hl0 with ⟨l1, hl1, he2⟩ | he2
        · exact Or.inl ⟨l1, hl1, he.trans he2⟩
        · exact Or.inr ⟨r, by simp, he.trans he2⟩
      · exact Or.inr ⟨r2, by simp [hr2], he⟩

theorem lot_id_lt_nextRowId {rows : List Row} {st : PState}
    (h : buildPortfolio rows = some st) :
    ∀ l ∈ st.positions, l.id < nextRowId rows := by
  intro l hl
  rcases lot_ids_replayList h l hl with ⟨l0, hl0, _⟩ | ⟨r, hr, he⟩
  · cases hl0
  · rw [he]
    exact row_id_lt_nextRowId r hr

theorem lookup_none_of_no_match {ps : List Lot} {t : String} {i : Int}
    (h : ∀ l ∈ ps, ¬ keyMatch t i l) : lookupLot ps t i = none :=
  List.find?_eq_none.mpr h

theorem lookup_append_left {ps qs : List Lot} {t : String} {i : Int} {l : Lot}
    (h : lookupLot ps t i = some l) : lookupLot (ps ++ qs) t i = some l := by
  induction ps with
  | nil => cases h
  | cons a as ih =>
    by_cases hk : keyMatch t i a
    · rw [lookupLot, List.find?_cons_of_pos _ hk] at h
      rw [List.cons_append, lookupLot, List.find?_cons_of_pos _ hk]
      exact h
    · rw [lookupLot, List.find?_cons_of_neg _ (by simp [hk])] at h
      rw [List.cons_append, lookupLot, List.find?_cons_of_neg _ (by simp [hk])]
      exact ih h

theorem lookup_append_right {ps qs : List Lot} {t : String} {i : Int}
    (h : lookupLot ps t i = none) : lookupLot (ps ++ qs) t i = lookupLot qs t i := by
  induction ps with
  | nil => rfl
  | cons a as ih =>
    by_cases hk : keyMatch t i a
    · rw [lookupLot, List.find?_cons_of_pos _ hk] at h
      cases h
    · rw [lookupLot, List.find?_cons_of_neg _ (by simp [hk])] at h
      rw [List.cons_append, lookupLot, List.find?_cons_of_neg _ (by simp [hk])]
      exact ih h

theorem replayList_append (xs ys : List Row) (st : PState) :
    replayList st (xs ++ ys) = (replayList st xs).bind (fun m => replayList m ys) := by
  induction xs generalizing st with
  | nil => rfl
  | cons r rs ih =>
    rw [List.cons_append, replayList, replayList]
    cases hstep : replayStep st r with
    | none => rfl
    | some m => exact ih m

/-- C10: `cmd_trim` never checks that the requested quantity is positive.  For
a negative request against an existing open lot both planner checks pass (a
negative quantity is never greater than the positive remaining quantity), the
appended row carries the negated — hence positive — quantity, and the replay
engine then interprets that row as opening a brand-new lot at the sell price
with stop 0, leaving the targeted lot untouched. -/
theorem c10_negative_trim_opens_new_lot (rows : List Row) (st : PState) (lot : Lot)
    (ticker : String) (lotId : Int) (q price : ℚ) (date : String) (unote : List Char)
    (hst : buildPortfolio rows = some st)
    (hlot : lookupLot st.positions ticker lotId = some lot)
    (hq : q < 0) :
    ∃ row, cmdTrim rows ticker lotId q price date unote = some row ∧
      row.qty = -q ∧ 0 < row.qty ∧
      ∃ st2, buildPortfolio (rows ++ [row]) = some st2 ∧
        lookupLot st2.positions ticker (nextRowId rows)
          = some ⟨nextRowId rows, ticker, -q, price, 0⟩ ∧
        lookupLot st2.positions ticker lotId = some lot := by
  have hlotpos : 0 < lot.qty :=
    allPos_replayList (by simp) hst lot (lot_mem_of_lookup hlot)
  have hnotgt : ¬ (lot.qty < q) := by linarith
  refine ⟨⟨nextRowId rows, date, ticker, -q, price, 0, trimNote lotId unote⟩, ?_, rfl, ?_, ?_⟩
  · simp only [cmdTrim, hst, hlot, if_neg hnotgt]
  · simpa using hq
  · have hfresh : ∀ l ∈ st.positions, ¬ keyMatch ticker (nextRowId rows) l := by
      intro l hl hk
      have hid := (keyMatch_true_iff.mp hk).2
      have hlt := lot_id_lt_nextRowId hst l hl
      rw [hid] at hlt
      exact lt_irrefl _ hlt
    have hstep : replayStep st ⟨nextRowId rows, date, ticker, -q, price, 0, trimNote lotId unote⟩
        = some { st with positions := st.positions ++ [⟨nextRowId rows, ticker, -q, price, 0⟩] } := by
      rw [replayStep_open (by simpa using hq)]
      rw [upsert_no_match hfresh]
    refine ⟨{ st with positions := st.positions ++ [⟨nextRowId rows, ticker, -q, price, 0⟩] },
      ?_, ?_, ?_⟩
    · rw [buildPortfolio, replayList_append]
      rw [buildPortfolio] at hst
      rw [hst, Option.some_bind]
      simp only [replayList, hstep]
    · have hnone : lookupLot st.positions ticker (nextRowId rows) = none :=
        lookup_none_of_no_match hfresh
      rw [lookup_append_right hnone, lookupLot,
        List.find?_cons_of_pos _ (by simp [keyMatch])]
    · exact lookup_append_left hlot

/-- Opening event for the C10 witness. -/
def c10row1 : Row := ⟨1, "2024-01-01", "TSLA", 100, 200, 180, []⟩

theorem c10_build :
    buildPortfolio [c10row1] = some ⟨[⟨1, "TSLA", 100, 200, 180⟩], fun _ => 0⟩ := by
  rw [buildPortfolio, replayList, replayStep_open (by norm_num [c10row1] : (0:ℚ) < c10row1.qty)]
  simp [upsert, c10row1, replayList]

/-- Witness for C10: trimming -50 shares from an open 100-share lot is
accepted by the planner and the appended row carries qty 50. -/
theorem c10_negative_trim_opens_new_lot_witness :
    (cmdTrim [c10row1] "TSLA" 1 (-50) 210 "2024-01-02" []).map Row.qty = some 50 := by
  obtain ⟨row, hrow, hqty, _, _⟩ := c10_negative_trim_opens_new_lot [c10row1]
    ⟨[⟨1, "TSLA", 100, 200, 180⟩], fun _ => 0⟩ ⟨1, "TSLA", 100, 200, 180⟩
    "TSLA" 1 (-50) 210 "2024-01-02" [] c10_build
    (by simp [lookupLot, keyMatch]) (by norm_num)
  rw [hrow, Option.map_some', hqty]
  norm_num

/-! ### Claim C2: note formatting and parsing round trip -/

theorem digitChar_isDigit {n : Nat} (h : n < 10) : (digitChar n).isDigit = true := by
  interval_cases n <;> decide

theorem digitChar_toNat {n : Nat} (h : n < 10) : (digitChar n).toNat - 48 = n := by
  interval_cases n <;> decide

theorem natToChars_ne_nil (n : Nat) : natToChars n ≠ [] := by
  rw [natToChars]
  split
  · simp
  · simp

theorem natToChars_all_digit (n : Nat) : ∀ c ∈ natToChars n, c.isDigit = true := by
  induction n using Nat.strong_induction_on with
  | _ n ih =>
    rw [natToChars]
    by_cases h : n < 10
    · rw [dif_pos h]
      intro c hc
      simp only [List.mem_singleton] at hc
      rw [hc]
      exact digitChar_isDigit h
    · rw [dif_neg h]
      intro c hc
      rcases List.mem_append.mp hc with hm | hm
      · exact ih (n / 10) (Nat.div_lt_self (by omega) (by omega)) c hm
      · simp only [List.mem_singleton] at hm
        rw [hm]
        exact digitChar_isDigit (Nat.mod_lt _ (by omega))

theorem parseDigitsAux_append (acc : Nat) (xs ys : List Char) :
    parseDigitsAux acc (xs ++ ys)
      = (parseDigitsAux acc xs).bind (fun a => parseDigitsAux a ys) := by
  induction xs generalizing acc with
  | nil => rfl
  | cons c cs ih =>
    rw [List.cons_append, parseDigitsAux, parseDigitsAux]
    by_cases h : c.isDigit
    · rw [if_pos h, if_pos h, ih]
    · rw [if_neg h, if_neg h]
      rfl

theorem parseDigitsAux_natToChars (n : Nat) :
    ∀ acc, parseDigitsAux acc (natToChars n)
      = some (acc * 10 ^ (natToChars n).length + n) := by
  induction n using Nat.strong_induction_on with
  | _ n ih =>
    intro acc
    rw [natToChars]
    by_cases h : n < 10
    · rw [dif_pos h]
      rw [parseDigitsAux, if_pos (digitChar_isDigit h), parseDigitsAux]
      rw [digitChar_toNat h]
      norm_num
    · rw [dif_neg h]
      rw [parseDigitsAux_append]
      rw [ih (n / 10) (Nat.div_lt_self (by omega) (by omega)) acc]
      rw [Option.some_bind]
      rw [parseDigitsAux, if_pos (digitChar_isDigit (Nat.mod_lt _ (by omega))),
        parseDigitsAux]
      rw [digitChar_toNat (Nat.mod_lt _ (by omega))]
      rw [List.length_append, List.length_singleton]
      rw [pow_succ]
      congr 1
      ring_nf
      omega

theorem parseDigits_natToChars (n : Nat) : parseDigits (natToChars n) = some n := by
  cases hne : natToChars n with
  | nil => exact absurd hne (natToChars_ne_nil n)
  | cons c cs =>
    have hcd : c.isDigit = true := by
      apply natToChars_all_digit n
      rw [hne]
      simp
    have haux : parseDigitsAux 0 (natToChars n)
        = some (0 * 10 ^ (natToChars n).length + n) := parseDigitsAux_natToChars n 0
    rw [hne] at haux
    rw [parseDigits, if_pos hcd]
    rw [parseDigitsAux, if_pos hcd] at haux
    have hz : (0 : Nat) * 10 + (c.toNat - 48) = c.toNat - 48 := by omega
    rw [hz] at haux
    rw [haux]
    norm_num

theorem digit_ne_dash {c : Char} (h : c.isDigit = true) : ¬ (c = '-') := by
  intro he
  rw [he] at h
  exact absurd h (by decide)

theorem digit_ne_plus {c : Char} (h : c.isDigit = true) : ¬ (c = '+') := by
  intro he
  rw [he] at h
  exact absurd h (by decide)

theorem parsePyInt_intToChars (i : Int) : parsePyInt (intToChars i) = some i := by
  rw [intToChars]
  by_cases h : i < 0
  · rw [if_pos h]
    rw [parsePyInt, if_pos rfl, parseDigits_natToChars]
    show some (-(i.natAbs : Int)) = some i
    congr 1
    omega
  · rw [if_neg h]
    cases hne : natToChars i.toNat with
    | nil => exact absurd hne (natToChars_ne_nil _)
    | cons c cs =>
      have hcd : c.isDigit = true := by
        apply natToChars_all_digit i.toNat
        rw [hne]
        simp
      rw [parsePyInt, if_neg (digit_ne_dash hcd), if_neg (digit_ne_plus hcd)]
      rw [← hne, parseDigits_natToChars]
      show some ((i.toNat : Int)) = some i
      congr 1
      omega

theorem not_ws_of_digit {c : Char} (h : c.isDigit = true) : isWs c = false := by
  cases hw : isWs c with
  | false => rfl
  | true =>
    exfalso
    simp only [isWs, Bool.or_eq_true, beq_iff_eq] at hw
    rcases hw with (((((h1 | h1) | h1) | h1) | h1) | h1) <;> (rw [h1] at h; exact absurd h (by decide))

theorem intToChars_no_ws (i : Int) : ∀ c ∈ intToChars i, isWs c = false := by
  rw [intToChars]
  by_cases h : i < 0
  · rw [if_pos h]
    intro c hc
    rcases List.mem_cons.mp hc with he | hm
    · rw [he]
      decide
    · exact not_ws_of_digit (natToChars_all_digit _ c hm)
  · rw [if_neg h]
    intro c hc
    exact not_ws_of_digit (natToChars_all_digit _ c hc)

theorem intToChars_ne_nil (i : Int) : intToChars i ≠ [] := by
  rw [intToChars]
  by_cases h : i < 0
  · rw [if_pos h]
    simp
  · rw [if_neg h]
    exact natToChars_ne_nil _

theorem splitWs_single_token (w : List Char) (hne : w ≠ [])
    (hws : ∀ c ∈ w, isWs c = false) : splitWs w = [w] := by
  induction w with
  | nil => exact absurd rfl hne
  | cons c cs ih =>
    cases cs with
    | nil =>
      have hc : isWs c = false := hws c (by simp)
      simp [splitWs, hc]
    | cons d ds =>
      have hc : isWs c = false := hws c (by simp)
      have hd : isWs d = false := hws d (by simp)
      have hrec : splitWs (d :: ds) = [d :: ds] := by
        apply ih (by simp)
        intro x hx
        exact hws x (by simp [List.mem_cons.mp hx])
      rw [splitWs.eq_3, if_neg (by simp [hc]), if_neg (by simp [hd]), hrec]

theorem splitWs_word_space (w rest : List Char) (hne : w ≠ [])
    (hws : ∀ c ∈ w, isWs c = false) :
    splitWs (w ++ ' ' :: rest) = w :: splitWs rest := by
  induction w with
  | nil => exact absurd rfl hne
  | cons c cs ih =>
    cases cs with
    | nil =>
      have hc : isWs c = false := hws c (by simp)
      rw [List.cons_append, List.nil_append]
      rw [splitWs.eq_3, if_neg (by simp [hc]), if_pos (by decide)]
    | cons d ds =>
      have hc : isWs c = false := hws c (by simp)
      have hd : isWs d = false := hws d (by simp)
      have hrec : splitWs ((d :: ds) ++ ' ' :: rest) = (d :: ds) :: splitWs rest := by
        apply ih (by simp)
        intro x hx
        exact hws x (by simp [List.mem_cons.mp hx])
      simp only [List.cons_append] at hrec ⊢
      rw [splitWs.eq_3, if_neg (by simp [hc]), if_neg (by simp [hd]), hrec]

theorem splitNote_decomp (lotId : Int) (idx total : Nat) :
    splitNote lotId idx total
      = ['s','p','l','i','t'] ++ ' ' :: (['f','r','o','m'] ++ ' ' ::
          (('i' :: 'd' :: '=' :: intToChars lotId) ++ ' ' ::
            (['p','a','r','t'] ++ ' ' ::
              (natToChars idx ++ '/' :: natToChars total)))) := by
  simp only [splitNote, List.append_assoc]
  rfl

theorem findTargetId_skip (a : Char) (t1 : List Char) (ts : List (List Char))
    (ha : a ≠ 'i') : findTargetId ((a :: t1) :: ts) = findTargetId ts := by
  cases t1 with
  | nil => rfl
  | cons b t2 =>
    cases t2 with
    | nil => rfl
    | cons c rest =>
      simp only [findTargetId]
      rw [if_neg (by intro hcon; exact ha hcon.1)]

theorem findTargetId_cons_id (rest : List Char) (ts : List (List Char)) (n : Int)
    (hp : parsePyInt rest = some n) :
    findTargetId (('i' :: 'd' :: '=' :: rest) :: ts) = some n := by
  simp only [findTargetId]
  rw [if_pos ⟨trivial, trivial, trivial⟩, hp]

theorem parseTargetId_splitNote (lotId : Int) (idx total : Nat) :
    parseTargetId (splitNote lotId idx total) = some lotId := by
  have hid_ws : ∀ c ∈ ('i' :: 'd' :: '=' :: intToChars lotId), isWs c = false := by
    intro c hc
    rcases List.mem_cons.mp hc with he | hc
    · rw [he]; decide
    rcases List.mem_cons.mp hc with he | hc
    · rw [he]; decide
    rcases List.mem_cons.mp hc with he | hc
    · rw [he]; decide
    exact intToChars_no_ws lotId c hc
  have hlast_ws : ∀ c ∈ (natToChars idx ++ '/' :: natToChars total), isWs c = false := by
    intro c hc
    rcases List.mem_append.mp hc with hm | hm
    · exact not_ws_of_digit (natToChars_all_digit _ c hm)
    · rcases List.mem_cons.mp hm with he | hm
      · rw [he]; decide
      · exact not_ws_of_digit (natToChars_all_digit _ c hm)
  have hlast_ne : (natToChars idx ++ '/' :: natToChars total) ≠ [] := by
    intro hcontra
    rcases List.append_eq_nil.mp hcontra with ⟨_, h2⟩
    cases h2
  rw [parseTargetId, splitNote_decomp]
  rw [splitWs_word_space _ _ (by simp) (by decide)]
  rw [splitWs_word_space _ _ (by simp) (by decide)]
  rw [splitWs_word_space _ _ (by simp) hid_ws]
  rw [splitWs_word_space _ _ (by simp) (by decide)]
  rw [splitWs_single_token _ hlast_ne hlast_ws]
  rw [findTargetId_skip _ _ _ (by decide)]
  rw [findTargetId_skip _ _ _ (by decide)]
  exact findTargetId_cons_id _ _ lotId (parsePyInt_intToChars lotId)

/-! ### Claim C2: structure of the planned split rows -/

theorem splitOpenRows_get? (price : ℚ) (lotId : Int) (ticker date : String) :
    ∀ (ps : List (ℚ × ℚ)) (rowId : Int) (idx total : Nat) (k : Nat),
      (splitOpenRows price lotId ticker date rowId idx total ps).get? k
        = (ps.get? k).map (fun p =>
            ⟨rowId + (k : Int), date, ticker, p.1, price, p.2,
              splitNote lotId (idx + k) total⟩) := by
  intro ps
  induction ps with
  | nil =>
    intro rowId idx total k
    simp [splitOpenRows]
  | cons p rest ih =>
    intro rowId idx total k
    cases p with
    | mk q s =>
      cases k with
      | zero => simp [splitOpenRows]
      | succ k2 =>
        rw [splitOpenRows, List.get?_cons_succ, List.get?_cons_succ, ih]
        cases hrk : rest.get? k2 with
        | none => rfl
        | some p2 =>
          simp only [Option.map_some']
          have h1 : rowId + 1 + (k2 : Int) = rowId + ((k2 + 1 : Nat) : Int) := by
            push_cast
            ring
          have h2 : idx + 1 + k2 = idx + (k2 + 1) := by omega
          rw [h1, h2]

theorem splitOpenRows_mem {price : ℚ} {lotId : Int} {ticker date : String} :
    ∀ {ps : List (ℚ × ℚ)} {rowId : Int} {idx total : Nat} {r : Row},
      r ∈ splitOpenRows price lotId ticker date rowId idx total ps →
      ∃ k q s, ps.get? k = some (q, s) ∧
        r = ⟨rowId + (k : Int), date, ticker, q, price, s, splitNote lotId (idx + k) total⟩ := by
  intro ps rowId idx total r hr
  rcases List.mem_iff_get?.mp hr with ⟨k, hk⟩
  rw [splitOpenRows_get? price lotId ticker date ps rowId idx total k] at hk
  cases hp : ps.get? k with
  | none => rw [hp] at hk; cases hk
  | some p =>
    rw [hp, Option.map_some'] at hk
    cases hk
    exact ⟨k, p.1, p.2, hp, rfl⟩

theorem splitOpenRows_pairwise_id (price : ℚ) (lotId : Int) (ticker date : String) :
    ∀ (ps : List (ℚ × ℚ)) (rowId : Int) (idx total : Nat),
      (splitOpenRows price lotId ticker date rowId idx total ps).Pairwise
        (fun a b => a.id ≠ b.id) := by
  intro ps
  induction ps with
  | nil =>
    intro rowId idx total
    exact List.Pairwise.nil
  | cons p rest ih =>
    intro rowId idx total
    cases p with
    | mk q s =>
      rw [splitOpenRows]
      refine List.Pairwise.cons ?_ (ih (rowId + 1) (idx + 1) total)
      intro r hr
      rcases splitOpenRows_mem hr with ⟨k, q2, s2, _, he⟩
      rw [he]
      show rowId ≠ rowId + 1 + (k : Int)
      omega

theorem replay_open_rows {rows : List Row} :
    ∀ {st : PState},
      (∀ r ∈ rows, 0 < r.qty) →
      (∀ r ∈ rows, ∀ l ∈ st.positions, l.id ≠ r.id) →
      rows.Pairwise (fun a b => a.id ≠ b.id) →
      replayList st rows
        = some { st with positions :=
            st.positions ++ rows.map (fun r => ⟨r.id, r.ticker, r.qty, r.price, r.stop⟩) } := by
  induction rows with
  | nil =>
    intro st _ _ _
    rw [replayList, List.map_nil, List.append_nil]
  | cons r rs ih =>
    intro st hpos hfresh hpair
    rw [List.pairwise_cons] at hpair
    rw [replayList]
    have hstep := @replayStep_open st r (hpos r (by simp))
    have hnm : ∀ l ∈ st.positions, ¬ keyMatch r.ticker r.id l := by
      intro l hl hk
      exact hfresh r (by simp) l hl (keyMatch_true_iff.mp hk).2
    rw [upsert_no_match hnm] at hstep
    rw [hstep]
    show replayList { st with positions :=
        st.positions ++ [⟨r.id, r.ticker, r.qty, r.price, r.stop⟩] } rs = _
    have hfresh2 : ∀ r2 ∈ rs,
        ∀ l ∈ ({ st with positions :=
          st.positions ++ [⟨r.id, r.ticker, r.qty, r.price, r.stop⟩] } : PState).positions,
        l.id ≠ r2.id := by
      intro r2 hr2 l hl
      rcases List.mem_append.mp hl with hm | hm
      · exact hfresh r2 (by simp [hr2]) l hm
      · simp only [List.mem_singleton] at hm
        rw [hm]
        exact hpair.1 r2 hr2
    have hih := @ih { st with positions :=
        st.positions ++ [⟨r.id, r.ticker, r.qty, r.price, r.stop⟩] }
      (fun r2 hr2 => hpos r2 (by simp [hr2])) hfresh2 hpair.2
    rw [hih]
    simp [List.append_assoc]

theorem lookup_splitOpenLots (price : ℚ) (lotId : Int) (ticker date : String) :
    ∀ (ps : List (ℚ × ℚ)) (rowId : Int) (idx total : Nat) (k : Nat) (q s : ℚ),
      ps.get? k = some (q, s) →
      lookupLot ((splitOpenRows price lotId ticker date rowId idx total ps).map
          (fun r => (⟨r.id, r.ticker, r.qty, r.price, r.stop⟩ : Lot)))
        ticker (rowId + (k : Int))
        = some ⟨rowId + (k : Int), ticker, q, price, s⟩ := by
  intro ps
  induction ps with
  | nil =>
    intro rowId idx total k q s h
    cases h
  | cons p rest ih =>
    intro rowId idx total k q s h
    cases p with
    | mk q2 s2 =>
      cases k with
      | zero =>
        rw [List.get?_cons_zero] at h
        injection h with h
        injection h with h1 h2
        rw [← h1, ← h2]
        simp only [Nat.cast_zero, add_zero, splitOpenRows, List.map_cons]
        rw [lookupLot, List.find?_cons_of_pos _ (by simp [keyMatch])]
      | succ k2 =>
        rw [List.get?_cons_succ] at h
        rw [splitOpenRows, List.map_cons, lookupLot, List.find?_cons_of_neg]
        · have harith : rowId + 1 + (k2 : Int) = rowId + ((k2 + 1 : Nat) : Int) := by
            push_cast
            ring
          rw [← harith]
          exact ih (rowId + 1) (idx + 1) total k2 q s h
        · simp only [keyMatch, Bool.not_eq_true, Bool.and_eq_false_iff]
          right
          simp only [beq_eq_false_iff_ne, ne_eq]
          intro hcon
          omega

theorem splitOpenRows_length (price : ℚ) (lotId : Int) (ticker date : String) :
    ∀ (ps : List (ℚ × ℚ)) (rowId : Int) (idx total : Nat),
      (splitOpenRows price lotId ticker date rowId idx total ps).length = ps.length := by
  intro ps
  induction ps with
  | nil => intro rowId idx total; rfl
  | cons p rest ih =>
    intro rowId idx total
    cases p with
    | mk q s =>
      rw [splitOpenRows, List.length_cons, List.length_cons, ih]

/-- C2 (amended): for every split that passes validation and whose parts all
have strictly positive quantity (with at least two parts), the planner emits
exactly N + 1 rows in the fixed order trim / stop-move / openings, and
replaying the extended ledger shrinks the original lot to `parts[0].qty` with
stop `parts[0].stop`, opens one lot per remaining part at the original entry
price, and preserves the total quantity (`parts` sum to the original lot
quantity). -/
theorem c2_split_emission_and_replay (rows : List Row) (st : PState) (lot : Lot)
    (ticker date : String) (lotId : Int) (tokens : List (Option (ℚ × ℚ)))
    (q0 s0 : ℚ) (rest : List (ℚ × ℚ)) (newRows : List Row)
    (hst : buildPortfolio rows = some st)
    (hlot : lookupLot st.positions ticker lotId = some lot)
    (hmap : tokens.mapM id = some ((q0, s0) :: rest))
    (hpos : ∀ p ∈ (q0, s0) :: rest, 0 < p.1)
    (hrest : rest ≠ [])
    (hplan : cmdSplit rows ticker lotId tokens date = some newRows) :
    newRows.length = ((q0, s0) :: rest).length + 1 ∧
    newRows.get? 0 = some ⟨nextRowId rows, date, ticker, -(lot.qty - q0), lot.price, 0,
        splitNote lotId 1 (rest.length + 2)⟩ ∧
    newRows.get? 1 = some ⟨nextRowId rows + 1, date, ticker, 0, 0, s0,
        splitNote lotId 2 (rest.length + 2)⟩ ∧
    (∀ k q s, rest.get? k = some (q, s) →
      newRows.get? (k + 2) = some ⟨nextRowId rows + 2 + (k : Int), date, ticker, q, lot.price,
        s, splitNote lotId (3 + k) (rest.length + 2)⟩) ∧
    ∃ st2, buildPortfolio (rows ++ newRows) = some st2 ∧
      lookupLot st2.positions ticker lotId = some ⟨lotId, ticker, q0, lot.price, s0⟩ ∧
      (∀ k q s, rest.get? k = some (q, s) →
        lookupLot st2.positions ticker (nextRowId rows + 2 + (k : Int))
          = some ⟨nextRowId rows + 2 + (k : Int), ticker, q, lot.price, s⟩) ∧
      q0 + (rest.map Prod.fst).sum = lot.qty := by
  have hkey := keyMatch_true_iff.mp (List.find?_some hlot)
  have hlotpos : 0 < lot.qty := allPos_replayList (by simp) hst lot (lot_mem_of_lookup hlot)
  have hq0ne : ¬ lot.qty = 0 := ne_of_gt hlotpos
  simp only [cmdSplit, hst] at hplan
  have hsum : (((q0, s0) :: rest).map Prod.fst).sum = lot.qty := by
    by_contra hc
    rw [splitPlan_bad_sum date (nextRowId rows) hlot hq0ne hmap hc] at hplan
    cases hplan
  have hnodup : (((q0, s0) :: rest).map Prod.snd).Nodup := by
    by_contra hc
    rw [splitPlan_dup_stops date (nextRowId rows) hlot hq0ne hmap hc] at hplan
    cases hplan
  rw [splitPlan_success date (nextRowId rows) hlot hq0ne hmap hsum hnodup] at hplan
  injection hplan with hplan
  subst hplan
  have hq0pos : 0 < q0 := hpos (q0, s0) (by simp)
  have hsum2 : q0 + (rest.map Prod.fst).sum = lot.qty := by
    rw [List.map_cons, List.sum_cons] at hsum
    exact hsum
  have hrestpos : 0 < (rest.map Prod.fst).sum := by
    apply List.sum_pos
    · intro x hx
      rcases List.mem_map.mp hx with ⟨p, hp, he⟩
      rw [← he]
      exact hpos p (by simp [hp])
    · intro hc
      rw [List.map_eq_nil_iff] at hc
      exact hrest hc
  have hq0lt : q0 < lot.qty := by linarith
  refine ⟨?_, rfl, rfl, ?_, ?_⟩
  · simp [splitOpenRows_length]
  · intro k q s hk
    rw [List.get?_cons_succ, List.get?_cons_succ,
      splitOpenRows_get? lot.price lotId ticker date rest (nextRowId rows + 2) 3
        (rest.length + 2) k, hk, Option.map_some']
  · -- replay of the three row groups
    set nid := nextRowId rows with hnid
    set r1 : Row := ⟨nid, date, ticker, -(lot.qty - q0), lot.price, 0,
      splitNote lotId 1 (rest.length + 2)⟩ with hr1
    set r2 : Row := ⟨nid + 1, date, ticker, 0, 0, s0, splitNote lotId 2 (rest.length + 2)⟩
      with hr2
    have hq1 : r1.qty < 0 := by
      show -(lot.qty - q0) < 0
      linarith
    have hp1 : parseTargetId r1.note = some lotId := parseTargetId_splitNote lotId 1 _
    have hstep1 := @replayStep_reduce_found st r1 lotId lot hq1 hp1 hlot
    have hng : -r1.qty = lot.qty - q0 := by
      show -(-(lot.qty - q0)) = lot.qty - q0
      ring
    rw [hng] at hstep1
    rw [if_neg (by linarith : ¬ lot.qty < lot.qty - q0)] at hstep1
    have hnews : lot.qty - (lot.qty - q0) = q0 := by ring
    rw [hnews] at hstep1
    rw [if_neg (by linarith : ¬ q0 = 0)] at hstep1
    have hp2 : parseTargetId r2.note = some lotId := parseTargetId_splitNote lotId 2 _
    have hl2 : lookupLot (setQty st.positions ticker lotId q0) ticker lotId
        = some { lot with qty := q0 } := lookup_setQty_self q0 hlot
    have hstep2 := @replayStep_stop_found
      ⟨setQty st.positions ticker lotId q0,
        bump st.realized ticker ((lot.qty - q0) * (r1.price - lot.price))⟩
      r2 lotId { lot with qty := q0 } rfl hp2 hl2
    -- the list of freshly opened rows
    have hfresh2 : ∀ l ∈ setStop (setQty st.positions ticker lotId q0) ticker lotId s0,
        l.id < nid := by
      intro l hl
      have hm : l.id ∈ (setStop (setQty st.positions ticker lotId q0) ticker lotId s0).map
          Lot.id := List.mem_map_of_mem Lot.id hl
      rw [map_id_setStop, map_id_setQty] at hm
      rcases List.mem_map.mp hm with ⟨l0, hl0, he⟩
      rw [← he]
      exact lot_id_lt_nextRowId hst l0 hl0
    have hopen := @replay_open_rows
      (splitOpenRows lot.price lotId ticker date (nid + 2) 3 (rest.length + 2) rest)
      ⟨setStop (setQty st.positions ticker lotId q0) ticker lotId s0,
        bump st.realized ticker ((lot.qty - q0) * (r1.price - lot.price))⟩
      ?hpos3 ?hfresh3 ?hpair3
    case hpos3 =>
      intro r hr
      rcases splitOpenRows_mem hr with ⟨k, q, s, hk, he⟩
      rw [he]
      show 0 < q
      have : (q, s) ∈ rest := by
        rcases List.get?_eq_some.mp hk with ⟨hlt, hget⟩
        rw [← hget]
        exact List.get_mem rest k hlt
      exact hpos (q, s) (by simp [this])
    case hfresh3 =>
      intro r hr l hl
      rcases splitOpenRows_mem hr with ⟨k, q, s, hk, he⟩
      have hlt := hfresh2 l hl
      rw [he]
      show l.id ≠ nid + 2 + (k : Int)
      omega
    case hpair3 => exact splitOpenRows_pairwise_id lot.price lotId ticker date rest _ _ _
    refine ⟨⟨setStop (setQty st.positions ticker lotId q0) ticker lotId s0
        ++ (splitOpenRows lot.price lotId ticker date (nid + 2) 3 (rest.length + 2) rest).map
            (fun r => ⟨r.id, r.ticker, r.qty, r.price, r.stop⟩),
      bump st.realized ticker ((lot.qty - q0) * (r1.price - lot.price))⟩, ?_, ?_, ?_, hsum2⟩
    · rw [buildPortfolio, replayList_append]
      rw [buildPortfolio] at hst
      rw [hst, Option.some_bind]
      rw [replayList, hstep1]
      show replayList _ (r2 :: _) = _
      rw [replayList, hstep2]
      show replayList _ _ = _
      exact hopen
    · apply lookup_append_left
      have := lookup_setStop_self s0 hl2
      rw [this]
      have hrec : ({ { lot with qty := q0 } with stop := s0 } : Lot)
          = ⟨lotId, ticker, q0, lot.price, s0⟩ := by
        cases lot with
        | mk a b c d e =>
          simp only at hkey ⊢
          rw [hkey.1, hkey.2]
      rw [hrec]
    · intro k q s hk
      have hnone : lookupLot (setStop (setQty st.positions ticker lotId q0) ticker lotId s0)
          ticker (nid + 2 + (k : Int)) = none := by
        apply lookup_none_of_no_match
        intro l hl hkm
        have hid := (keyMatch_true_iff.mp hkm).2
        have := hfresh2 l hl
        omega
      rw [lookup_append_right hnone]
      exact lookup_splitOpenLots lot.price lotId ticker date rest (nid + 2) 3
        (rest.length + 2) k q s hk

/-- Opening event of a 70-share lot, used for the C2 counterexample. -/
def c2crow1 : Row := ⟨1, "2024-01-01", "TSLA", 70, 200, 180, []⟩

theorem c2c_build :
    buildPortfolio [c2crow1] = some ⟨[⟨1, "TSLA", 70, 200, 180⟩], fun _ => 0⟩ := by
  rw [buildPortfolio, replayList, replayStep_open (by norm_num [c2crow1] : (0:ℚ) < c2crow1.qty)]
  simp [upsert, c2crow1, replayList]

theorem c2c_plan :
    cmdSplit [c2crow1] "TSLA" 1 [some (100, 190), some (-30, 185)] "2024-01-02"
      = some [⟨2, "2024-01-02", "TSLA", -(70 - 100 : ℚ), 200, 0, splitNote 1 1 3⟩,
              ⟨3, "2024-01-02", "TSLA", 0, 0, 190, splitNote 1 2 3⟩,
              ⟨4, "2024-01-02", "TSLA", -30, 200, 185, splitNote 1 3 3⟩] := by
  have hlook : lookupLot ((⟨[⟨1, "TSLA", 70, 200, 180⟩], fun _ => 0⟩ : PState)).positions
      "TSLA" 1 = some ⟨1, "TSLA", 70, 200, 180⟩ := by
    simp [lookupLot, keyMatch]
  have hq0ne : ¬ ((⟨1, "TSLA", 70, 200, 180⟩ : Lot)).qty = 0 := by norm_num
  have hmap : ([some ((100:ℚ), (190:ℚ)), some ((-30:ℚ), (185:ℚ))] :
      List (Option (ℚ × ℚ))).mapM id = some [((100:ℚ), (190:ℚ)), ((-30:ℚ), (185:ℚ))] := by
    simp only [mapM_id_cons, mapM_id_nil, Option.some_bind, Option.map_some']
  have hsum : (([((100:ℚ), (190:ℚ)), ((-30:ℚ), (185:ℚ))]).map Prod.fst).sum
      = ((⟨1, "TSLA", 70, 200, 180⟩ : Lot)).qty := by
    show (100 : ℚ) + (-30 + 0) = 70
    norm_num
  have hnodup : (([((100:ℚ), (190:ℚ)), ((-30:ℚ), (185:ℚ))]).map Prod.snd).Nodup := by
    simp only [List.map_cons, List.map_nil, List.nodup_cons, List.mem_singleton,
      List.mem_nil_iff, List.nodup_nil, and_true, not_false_iff]
    norm_num
  have hplan := splitPlan_success "2024-01-02" (nextRowId [c2crow1]) hlook hq0ne hmap hsum hnodup
  have hnid : nextRowId [c2crow1] = 2 := rfl
  rw [hnid] at hplan
  simp only [cmdSplit, c2c_build, hnid, hplan, splitOpenRows]
  norm_num [Row.mk.injEq]

/-- Counterexample to C2 as stated: against a 70-share lot, the parts
"100:190 -30:185" pass all of `cmd_split`'s validation (they sum to 70 and
have distinct stops), yet the first emitted row has qty +30 — an opening
event, not a reduction — and after replaying the split the original lot holds
40 shares, not parts[0].qty = 100. -/
theorem c2_negative_part_counterexample :
    ((cmdSplit [c2crow1] "TSLA" 1 [some (100, 190), some (-30, 185)] "2024-01-02").map
        (fun l => l.map Row.qty) = some [30, 0, -30]) ∧
    ((cmdSplit [c2crow1] "TSLA" 1 [some (100, 190), some (-30, 185)] "2024-01-02").bind
        (fun nr => (buildPortfolio ([c2crow1] ++ nr)).bind
          (fun st => (lookupLot st.positions "TSLA" 1).map Lot.qty)) = some 40) ∧
    ¬ ((40 : ℚ) = 100) := by
  have h30 : -(70 - 100 : ℚ) = 30 := by norm_num
  rw [c2c_plan, h30]
  refine ⟨by norm_num, ?_, by norm_num⟩
  rw [Option.some_bind]
  -- replay the extended ledger step by step
  rw [buildPortfolio, replayList_append]
  rw [show replayList ⟨[], fun _ => 0⟩ [c2crow1]
      = some ⟨[⟨1, "TSLA", 70, 200, 180⟩], fun _ => 0⟩ from c2c_build, Option.some_bind]
  have hstep1 : replayStep ⟨[⟨1, "TSLA", 70, 200, 180⟩], fun _ => 0⟩
      ⟨2, "2024-01-02", "TSLA", 30, 200, 0, splitNote 1 1 3⟩
      = some ⟨[⟨1, "TSLA", 70, 200, 180⟩, ⟨2, "TSLA", 30, 200, 0⟩], fun _ => 0⟩ := by
    rw [replayStep_open (by norm_num)]
    rw [upsert_no_match (by intro l hl; simp at hl; rw [hl]; simp [keyMatch])]
    rfl
  have hl2 : lookupLot ([⟨1, "TSLA", 70, 200, 180⟩, ⟨2, "TSLA", 30, 200, 0⟩] : List Lot)
      "TSLA" 1 = some ⟨1, "TSLA", 70, 200, 180⟩ := by
    simp [lookupLot, keyMatch]
  have hstep2 : replayStep ⟨[⟨1, "TSLA", 70, 200, 180⟩, ⟨2, "TSLA", 30, 200, 0⟩], fun _ => 0⟩
      ⟨3, "2024-01-02", "TSLA", 0, 0, 190, splitNote 1 2 3⟩
      = some ⟨[⟨1, "TSLA", 70, 200, 190⟩, ⟨2, "TSLA", 30, 200, 0⟩], fun _ => 0⟩ := by
    rw [@replayStep_stop_found ⟨[⟨1, "TSLA", 70, 200, 180⟩, ⟨2, "TSLA", 30, 200, 0⟩],
      fun _ => 0⟩ ⟨3, "2024-01-02", "TSLA", 0, 0, 190, splitNote 1 2 3⟩ 1
      ⟨1, "TSLA", 70, 200, 180⟩ rfl (parseTargetId_splitNote 1 2 3) hl2]
    simp [setStop, keyMatch]
  have hl3 : lookupLot ([⟨1, "TSLA", 70, 200, 190⟩, ⟨2, "TSLA", 30, 200, 0⟩] : List Lot)
      "TSLA" 1 = some ⟨1, "TSLA", 70, 200, 190⟩ := by
    simp [lookupLot, keyMatch]
  have hstep3 : replayStep ⟨[⟨1, "TSLA", 70, 200, 190⟩, ⟨2, "TSLA", 30, 200, 0⟩], fun _ => 0⟩
      ⟨4, "2024-01-02", "TSLA", -30, 200, 185, splitNote 1 3 3⟩
      = some ⟨[⟨1, "TSLA", 40, 200, 190⟩, ⟨2, "TSLA", 30, 200, 0⟩],
          bump (fun _ => 0) "TSLA" (30 * (200 - 200))⟩ := by
    have h := @replayStep_reduce_found
      ⟨[⟨1, "TSLA", 70, 200, 190⟩, ⟨2, "TSLA", 30, 200, 0⟩], fun _ => 0⟩
      ⟨4, "2024-01-02", "TSLA", -30, 200, 185, splitNote 1 3 3⟩ 1
      ⟨1, "TSLA", 70, 200, 190⟩ (by norm_num) (parseTargetId_splitNote 1 3 3) hl3
    have hsell : (if ((⟨1, "TSLA", 70, 200, 190⟩ : Lot)).qty
        < -((⟨4, "2024-01-02", "TSLA", -30, 200, 185, splitNote 1 3 3⟩ : Row)).qty
        then ((⟨1, "TSLA", 70, 200, 190⟩ : Lot)).qty
        else -((⟨4, "2024-01-02", "TSLA", -30, 200, 185, splitNote 1 3 3⟩ : Row)).qty)
        = 30 := by norm_num
    rw [hsell] at h
    rw [if_neg (by norm_num : ¬ (((⟨1, "TSLA", 70, 200, 190⟩ : Lot)).qty - 30 = 0))] at h
    rw [h]
    have hset : setQty ([⟨1, "TSLA", 70, 200, 190⟩, ⟨2, "TSLA", 30, 200, 0⟩] : List Lot)
        "TSLA" 1 (((⟨1, "TSLA", 70, 200, 190⟩ : Lot)).qty - 30)
        = [⟨1, "TSLA", 40, 200, 190⟩, ⟨2, "TSLA", 30, 200, 0⟩] := by
      norm_num [setQty, keyMatch]
    rw [hset]
  rw [replayList, hstep1]
  show (replayList _ _ ).bind _ = _
  rw [replayList, hstep2]
  show (replayList _ _ ).bind _ = _
  rw [replayList, hstep3]
  show (replayList _ _ ).bind _ = _
  rw [replayList, Option.some_bind]
  simp [lookupLot, keyMatch]

/-- Opening event of a 70-share lot, used for the C2 witness. -/
def c2wrow1 : Row := ⟨1, "2024-01-01", "TSLA", 70, 200, 180, []⟩

theorem c2w_build :
    buildPortfolio [c2wrow1] = some ⟨[⟨1, "TSLA", 70, 200, 180⟩], fun _ => 0⟩ := by
  rw [buildPortfolio, replayList, replayStep_open (by norm_num [c2wrow1] : (0:ℚ) < c2wrow1.qty)]
  simp [upsert, c2wrow1, replayList]

theorem c2w_plan :
    cmdSplit [c2wrow1] "TSLA" 1 [some (30, 190), some (40, 185)] "2024-01-02"
      = some [⟨2, "2024-01-02", "TSLA", -(((⟨1, "TSLA", 70, 200, 180⟩ : Lot)).qty - 30),
                ((⟨1, "TSLA", 70, 200, 180⟩ : Lot)).price, 0, splitNote 1 1 3⟩,
              ⟨2 + 1, "2024-01-02", "TSLA", 0, 0, 190, splitNote 1 2 3⟩,
              ⟨2 + 2, "2024-01-02", "TSLA", 40, ((⟨1, "TSLA", 70, 200, 180⟩ : Lot)).price,
                185, splitNote 1 3 3⟩] := by
  have hlook : lookupLot ((⟨[⟨1, "TSLA", 70, 200, 180⟩], fun _ => 0⟩ : PState)).positions
      "TSLA" 1 = some ⟨1, "TSLA", 70, 200, 180⟩ := by
    simp [lookupLot, keyMatch]
  have hq0ne : ¬ ((⟨1, "TSLA", 70, 200, 180⟩ : Lot)).qty = 0 := by norm_num
  have hmap : ([some ((30:ℚ), (190:ℚ)), some ((40:ℚ), (185:ℚ))] :
      List (Option (ℚ × ℚ))).mapM id = some [((30:ℚ), (190:ℚ)), ((40:ℚ), (185:ℚ))] := by
    simp only [mapM_id_cons, mapM_id_nil, Option.some_bind, Option.map_some']
  have hsum : (([((30:ℚ), (190:ℚ)), ((40:ℚ), (185:ℚ))]).map Prod.fst).sum
      = ((⟨1, "TSLA", 70, 200, 180⟩ : Lot)).qty := by
    show (30 : ℚ) + (40 + 0) = 70
    norm_num
  have hnodup : (([((30:ℚ), (190:ℚ)), ((40:ℚ), (185:ℚ))]).map Prod.snd).Nodup := by
    simp only [List.map_cons, List.map_nil, List.nodup_cons, List.mem_singleton,
      List.mem_nil_iff, List.nodup_nil, and_true, not_false_iff]
    norm_num
  have hplan := splitPlan_success "2024-01-02" (nextRowId [c2wrow1]) hlook hq0ne hmap hsum hnodup
  have hnid : nextRowId [c2wrow1] = 2 := rfl
  rw [hnid] at hplan
  simp only [cmdSplit, c2w_build, hnid, hplan, splitOpenRows]
  rfl

/-- Witness for the amended C2 at the concrete split of Scenario 4: a 70-share
lot split into "30:190 40:185" plans exactly 3 rows and preserves the total
quantity. -/
theorem c2_split_emission_and_replay_witness :
    (cmdSplit [c2wrow1] "TSLA" 1 [some (30, 190), some (40, 185)] "2024-01-02").map
      List.length = some 3 ∧
    (30 : ℚ) + (([((40:ℚ), (185:ℚ))]).map Prod.fst).sum
      = ((⟨1, "TSLA", 70, 200, 180⟩ : Lot)).qty := by
  have hc := c2_split_emission_and_replay [c2wrow1] ⟨[⟨1, "TSLA", 70, 200, 180⟩], fun _ => 0⟩
    ⟨1, "TSLA", 70, 200, 180⟩ "TSLA" "2024-01-02" 1
    [some (30, 190), some (40, 185)] 30 190 [((40:ℚ), (185:ℚ))] _
    c2w_build (by simp [lookupLot, keyMatch])
    (by simp only [mapM_id_cons, mapM_id_nil, Option.some_bind, Option.map_some'])
    (by intro p hp; rcases List.mem_cons.mp hp with he | hp2
        · rw [he]; norm_num
        · simp only [List.mem_singleton] at hp2
          rw [hp2]; norm_num)
    (by simp) c2w_plan
  constructor
  · rw [c2w_plan, Option.map_some']
    rw [show ([⟨2, "2024-01-02", "TSLA", -(((⟨1, "TSLA", 70, 200, 180⟩ : Lot)).qty - 30),
        ((⟨1, "TSLA", 70, 200, 180⟩ : Lot)).price, 0, splitNote 1 1 3⟩,
      ⟨2 + 1, "2024-01-02", "TSLA", 0, 0, 190, splitNote 1 2 3⟩,
      ⟨2 + 2, "2024-01-02", "TSLA", 40, ((⟨1, "TSLA", 70, 200, 180⟩ : Lot)).price,
        185, splitNote 1 3 3⟩] : List Row).length = 3 from rfl]
  · rcases hc.2.2.2.2 with ⟨st2, _, _, _, hsum⟩
    exact hsum
